import Mathlib

/-!
Verification of the Github2Markdown backend core (`src/backend/app/main.py`)
against its natural-language specification.

The Python code is shallowly embedded: every function of `main.py` that the
claims touch is translated into an executable Lean definition.  The remote
GitHub API and the per-file raw downloads are modelled as an explicit `Api`
environment (a pure function from a directory path to the listing outcome, and
from a download URL to the download outcome); the recursion of
`fetch_repo_contents_recursive` is made total with an explicit fuel argument
(one unit of fuel per directory-nesting level).  Python strings are Lean
strings (sequences of Unicode code points); Python `str.lower()` is modelled
per-character, which agrees with CPython on all ASCII data.
-/

/-! ## Python string primitives -/

/-- Per-character lowercasing, modelling Python `str.lower()` (ASCII-faithful). -/
def lowerStr (s : String) : String := ⟨s.data.map Char.toLower⟩

/-- Python string `<` (lexicographic by code point), on character lists. -/
def charListLt : List Char → List Char → Bool
  | _, [] => false
  | [], _ :: _ => true
  | a :: as, b :: bs => a.toNat < b.toNat || (a = b && charListLt as bs)

/-- Python truthiness of an optional string (`None` and `""` are falsy). -/
def pyTruthy : Option String → Bool
  | some s => s ≠ ""
  | none => false

/-- Python `a or b` on optional strings. -/
def pyOr (a b : Option String) : Option String := if pyTruthy a then a else b

/-! ## `BINARY_FILE_EXTENSIONS` and `is_binary_file` (main.py lines 43-54) -/

def BINARY_FILE_EXTENSIONS : List String :=
  [".jpg", ".jpeg", ".png", ".gif", ".bmp", ".tiff", ".webp", ".svg", ".ico",
   ".mp3", ".wav", ".aac", ".ogg", ".flac", ".mp4", ".mov", ".avi", ".mkv", ".webm",
   ".zip", ".tar", ".gz", ".rar", ".7z", ".pdf", ".doc", ".docx", ".ppt", ".pptx", ".xls", ".xlsx",
   ".exe", ".dll", ".so", ".dylib", ".jar", ".pyc", ".pyo", ".class", ".o", ".a", ".obj",
   ".eot", ".otf", ".ttf", ".woff", ".woff2", ".DS_Store"]

/-- The part of a string after the last occurrence of `sep` (the whole string
when `sep` does not occur): Python `s.split(sep)[-1]`. -/
def pySplitLast (sep : Char) (s : String) : String :=
  ⟨(s.data.reverse.takeWhile (fun c => c ≠ sep)).reverse⟩

/-- The extension part of CPython `os.path.splitext` (posixpath variant):
the final-dot suffix of the last path segment, except that the leading dots
of the segment never start an extension. -/
def splitextExt (p : String) : String :=
  let base := pySplitLast '/' p
  let stripped := base.data.dropWhile (fun c => c = '.')
  if stripped.contains ('.') then
    ⟨'.' :: (stripped.reverse.takeWhile (fun c => c ≠ '.')).reverse⟩
  else ("")

/-- `is_binary_file` from main.py: `ext.lower() in BINARY_FILE_EXTENSIONS`. -/
def is_binary_file (file_path : String) : Bool :=
  BINARY_FILE_EXTENSIONS.contains (lowerStr (splitextExt file_path))

/-! ## `get_github_api_headers` (main.py lines 56-62) -/

/-- The two headers always sent. -/
def baseHeaders : List (String × String) :=
  [("Accept", "application/vnd.github.v3+json"),
   ("X-GitHub-Api-Version", "2022-11-28")]

/-- `get_github_api_headers`: the user token, via Python `or`, falls back to the
process-level `GITHUB_TOKEN`; the Authorization header is added only when the
resulting value is truthy. -/
def get_github_api_headers (user_provided_token backend_env_token : Option String) :
    List (String × String) :=
  let token_to_use := pyOr user_provided_token backend_env_token
  if pyTruthy token_to_use then
    baseHeaders ++ [("Authorization", "Bearer " ++ (token_to_use.getD ("")))]
  else baseHeaders

/-! ## `parse_github_url` (main.py lines 64-70)

The source matches
`r"https://github\.com/([^/]+)/([^/.]+?)(?:\.git)?(?:/tree/[^/]+(?:/.*)?)?/?$"`
with `re.match`.  The embedding below reproduces the regex semantics exactly:
`re.match` anchors at the start; `$` matches at the end of the string or just
before a final newline; `.` matches every character except newline; negated
classes match newline; the owner group `[^/]+` is forced to end at the first
slash after the host, and the lazy repo group `[^/.]+?` takes the shortest
nonempty dot-free slash-free prefix whose remainder matches the rest. -/

/-- Python `$` (no MULTILINE): end of string, or just before a final newline. -/
def matchEnd (s : List Char) : Bool := s = [] || s = ['\n']

/-- Matches `/?$` against the whole remainder `s`. -/
def matchOptSlashEnd (s : List Char) : Bool :=
  matchEnd s || (decide (s.head? = some '/') && matchEnd (s.drop 1))

/-- After the `/` of `(?:/.*)`, the remainder `t` can be split as
`dotstar ++ rest` with `dotstar` newline-free and `rest` matching `/?$`
exactly when every newline of `t` is its final character. -/
def okDotStar (t : List Char) : Bool := t.dropLast.all (fun c => c ≠ '\n')

/-- Matches `(?:/.*)?/?$` against the whole remainder `v`. -/
def matchDotStarPart (v : List Char) : Bool :=
  matchOptSlashEnd v || (decide (v.head? = some '/') && okDotStar (v.drop 1))

/-- Matches `[^/]+(?:/.*)?/?$` against the remainder `u` after `/tree/`:
some nonempty slash-free ref is taken, the rest must match on. -/
def matchTreeTail (u : List Char) : Bool :=
  let run := u.takeWhile (fun c => c ≠ '/')
  (List.range run.length).any (fun i => matchDotStarPart (u.drop (i + 1)))

/-- Matches `(?:/tree/[^/]+(?:/.*)?)?/?$` against the whole remainder `s`. -/
def matchTreeGroup (s : List Char) : Bool :=
  matchOptSlashEnd s ||
    (("/tree/").data.isPrefixOf s && matchTreeTail (s.drop 6))

/-- Matches `(?:\.git)?(?:/tree/[^/]+(?:/.*)?)?/?$` against the remainder `s`. -/
def matchGitTail (s : List Char) : Bool :=
  matchTreeGroup s || ((".git").data.isPrefixOf s && matchTreeGroup (s.drop 4))

/-- The lazy group `([^/.]+?)`: the shortest nonempty dot-free slash-free
prefix of `tail` whose remainder matches `matchGitTail`; `none` if no length
works. -/
def lazyRepoLen (tail : List Char) : Option Nat :=
  let m := (tail.takeWhile (fun c => c ≠ '/' && c ≠ '.')).length
  ((List.range m).find? (fun i => matchGitTail (tail.drop (i + 1)))).map (· + 1)

/-- `parse_github_url` from main.py; `none` models the raised `ValueError`
("Invalid GitHub URL format"). -/
def parse_github_url (url : String) : Option (String × String) :=
  let pre := ("https://github.com/").data
  if pre.isPrefixOf url.data then
    let rest := url.data.drop pre.length
    let owner := rest.takeWhile (fun c => c ≠ '/')
    if owner.isEmpty then none
    else
      match rest.drop owner.length with
      | '/' :: tail =>
        match lazyRepoLen tail with
        | some k => some (⟨owner⟩, ⟨tail.take k⟩)
        | none => none
      | _ => none
  else none

/-! ## Data model (`models.py` `FileNode`) and the modelled remote API -/

/-- `FileNode` from models.py: `type` is the string tag used by the code
("file" / "dir"); `children` is `None` for files. -/
inductive FileNode where
  | mk (name : String) (path : String) (type : String)
      (children : Option (List FileNode)) (content : Option String) : FileNode
deriving Repr

def FileNode.name : FileNode → String
  | .mk n _ _ _ _ => n

def FileNode.path : FileNode → String
  | .mk _ p _ _ _ => p

def FileNode.type : FileNode → String
  | .mk _ _ t _ _ => t

def FileNode.children : FileNode → Option (List FileNode)
  | .mk _ _ _ ch _ => ch

def FileNode.content : FileNode → Option String
  | .mk _ _ _ _ c => c

/-- One entry of a GitHub contents listing (the JSON fields the code reads).
`content`/`encoding` are carried because the upstream API sends them, even
though `main.py` never reads them. -/
structure Item where
  name : String
  path : String
  type : String
  download_url : Option String
  content : Option String
  encoding : Option String
deriving DecidableEq, Repr

/-- The body of a 2xx response of the contents endpoint: a single JSON object,
a JSON array of items, or anything else. -/
inductive ContentsBody where
  | obj (item : Item)
  | arr (items : List Item)
  | other
deriving DecidableEq, Repr

/-- A non-2xx response, with the JSON fields and the header the code reads. -/
structure HttpErrorResponse where
  status : Nat
  jsonMessage : Option String
  jsonDocsUrl : Option String
  rateLimitRemaining : Option String
deriving DecidableEq, Repr

/-- Outcome of one listing call (`client.get` + `raise_for_status`). -/
inductive ListingResult where
  | success (body : ContentsBody)
  | httpStatusError (resp : HttpErrorResponse)
  | requestError (msg : String)
deriving DecidableEq, Repr

/-- Outcome of one raw-content download.  Decoding with
`decode('utf-8', errors='replace')` is total, so a successful download is
modelled directly by its decoded text; `failure` is any raised exception
(network error or `raise_for_status`), carrying Python `str(e)`. -/
inductive DownloadResult where
  | success (text : String)
  | failure (msg : String)
deriving DecidableEq, Repr

/-- The modelled remote: listings keyed by directory path, downloads keyed by
download URL.  (The request headers cannot change a response in this model;
the token only enters the error-message construction, as in the code.) -/
structure Api where
  listing : String → ListingResult
  download : String → DownloadResult

/-- The `HTTPException(status_code, detail)` raised by the traversal. -/
structure HTTPError where
  status_code : Nat
  detail : String
deriving DecidableEq, Repr

def GITHUB_API_BASE_URL : String := "https://api.github.com"

/-! ## Per-file content retrieval (main.py lines 141-154 and 166-179) -/

/-- The default placeholder, also used for binary files. -/
def binaryPlaceholder (p : String) : String :=
  "[Content of binary/image file: " ++ p ++ "]"

/-- Content retrieval for an item of a directory listing (lines 166-179):
binary files keep the default placeholder; a truthy `download_url` is fetched,
a download failure becomes an inline error placeholder; no `download_url`
yields the "not fetched" placeholder.  The inline base64 `content` field is
deliberately ignored by the code. -/
def fetchDirFileContent (api : Api) (item : Item) : String :=
  if is_binary_file item.path then binaryPlaceholder item.path
  else
    match pyOr item.download_url none with
    | some u =>
        match api.download u with
        | .success s => s
        | .failure m =>
            "[Error fetching/decoding text content for " ++ item.path ++ ": " ++ m ++ "]"
    | none => "[Text content not fetched for " ++ item.path ++ " - no download URL]"

/-- Content retrieval for the single-file case (lines 141-151): same policy,
except that with no truthy `download_url` the default binary placeholder is
simply left in place, and the error placeholder text differs slightly. -/
def fetchSingleFileContent (api : Api) (item : Item) : String :=
  if is_binary_file item.path then binaryPlaceholder item.path
  else
    match pyOr item.download_url none with
    | some u =>
        match api.download u with
        | .success s => s
        | .failure m =>
            "[Error fetching/decoding content for " ++ item.path ++ ": " ++ m ++ "]"
    | none => binaryPlaceholder item.path

/-! ## Listing-error classification (main.py lines 106-131) -/

/-- The `detail` string of the `HTTPException` raised for a non-2xx listing
response, exactly as built by lines 107-129. -/
def listing_error_detail (owner repo path url : String) (token_in_use : Bool)
    (resp : HttpErrorResponse) : String :=
  if resp.status = 404 then
    "Repository or path not found: " ++ owner ++ "/" ++ repo ++ "/" ++ path
  else if resp.status = 403 then
    let gh_message := resp.jsonMessage.getD ("Access forbidden by GitHub.")
    let docs_url := resp.jsonDocsUrl.getD ("")
    if resp.rateLimitRemaining = some ("0") then
      "GitHub API rate limit exceeded. " ++ gh_message
    else if !token_in_use then
      gh_message ++
        " This could be a private repository (requires a GitHub token) or a rate limit issue. Docs: " ++
        docs_url
    else
      gh_message ++ " Check token permissions or if it's a rate limit issue. Docs: " ++ docs_url
  else if resp.status = 401 then
    "GitHub API: Bad credentials. Ensure your token is correct and has not expired."
  else
    "GitHub API error for " ++ url ++ ": Status " ++ toString resp.status ++ "."

/-! ## Child sorting (main.py line 194)

`current_node.children.sort(key=lambda x: (x.type != 'dir', x.name.lower()))`:
a stable sort by the Python tuple order on `(bool, str)`. -/

/-- Rank of the first key component: `x.type != 'dir'` (False sorts first). -/
def nodeKeyRank (x : FileNode) : Nat := if x.type = "dir" then 0 else 1

/-- Python `<` on the sort key `(x.type != 'dir', x.name.lower())`. -/
def nodeLtB (a b : FileNode) : Bool :=
  nodeKeyRank a < nodeKeyRank b ||
    (nodeKeyRank a = nodeKeyRank b &&
      charListLt (lowerStr a.name).data (lowerStr b.name).data)

/-- Stable insertion of `x` after every element strictly below it. -/
def insertBy (lt : α → α → Bool) (x : α) : List α → List α
  | [] => [x]
  | y :: ys => if lt y x then y :: insertBy lt x ys else x :: y :: ys

/-- Stable insertion sort; for a total preorder it computes the same list as
Python's stable `list.sort`. -/
def sortByLt (lt : α → α → Bool) : List α → List α
  | [] => []
  | x :: xs => insertBy lt x (sortByLt lt xs)

/-- The child sort of line 194. -/
def sortNodes : List FileNode → List FileNode := sortByLt nodeLtB

/-- Adjacent-pair sortedness with respect to a strict comparison `lt`
(no later element is strictly below its predecessor). -/
def chainSortedB (lt : α → α → Bool) : List α → Bool
  | [] => true
  | [_] => true
  | a :: b :: rest => !lt b a && chainSortedB lt (b :: rest)

/-! ## The recursive traversal (main.py lines 84-199) -/

/-- The loop over a directory listing (lines 164-191), parameterized by the
recursive call `recur` used for subdirectories.  Items whose `type` is neither
"file" nor "dir" fall through both branches of the `if`/`elif` and are
skipped.  A subdirectory failure aborts the whole loop, as the Python
exception would. -/
def process_listing_items (api : Api)
    (recur : String → Except HTTPError (FileNode × List (String × String))) :
    List Item → Except HTTPError (List FileNode × List (String × String))
  | [] => .ok ([], [])
  | item :: rest =>
    if item.type = "file" then
      let c := fetchDirFileContent api item
      match process_listing_items api recur rest with
      | .error e => .error e
      | .ok (ns, flat) =>
          .ok (.mk item.name item.path ("file") none (some c) :: ns,
               (item.path, c) :: flat)
    else if item.type = "dir" then
      match recur item.path with
      | .error e => .error e
      | .ok (sub, subFlat) =>
          match process_listing_items api recur rest with
          | .error e => .error e
          | .ok (ns, flat) => .ok (sub :: ns, subFlat ++ flat)
    else process_listing_items api recur rest

/-- `fetch_repo_contents_recursive`: one listing call for `path`, then either
the single-file shortcut, a hard failure, or the directory loop followed by
the child sort.  `fuel` bounds the modelled recursion depth (the Python code
recurses unboundedly); every run of the Python code that terminates is
reproduced by any sufficiently large fuel. -/
def fetch_repo_contents_recursive (api : Api)
    (user_provided_token backend_env_token : Option String) (owner repo : String) :
    Nat → String → Except HTTPError (FileNode × List (String × String))
  | 0, _ => .error ⟨599, "model artifact: recursion depth bound exceeded"⟩
  | fuel + 1, path =>
    let url := GITHUB_API_BASE_URL ++ "/repos/" ++ owner ++ "/" ++ repo ++ "/contents/" ++ path
    match api.listing path with
    | .requestError msg =>
        .error ⟨503, "Network error while contacting GitHub API: " ++ msg⟩
    | .httpStatusError resp =>
        .error ⟨resp.status,
          listing_error_detail owner repo path url
            (pyTruthy (pyOr user_provided_token backend_env_token)) resp⟩
    | .success (.obj item) =>
        if item.type = "file" then
          let c := fetchSingleFileContent api item
          .ok (.mk item.name item.path ("file") none (some c), [(item.path, c)])
        else
          .error ⟨500, "Unexpected response format from GitHub API for directory path: " ++
            path ++ ". Expected a list."⟩
    | .success .other =>
        .error ⟨500, "Unexpected response format from GitHub API for directory path: " ++
          path ++ ". Expected a list."⟩
    | .success (.arr items) =>
        match process_listing_items api
            (fetch_repo_contents_recursive api user_provided_token backend_env_token owner repo fuel)
            items with
        | .error e => .error e
        | .ok (children, flat) =>
          let dir_name := if path = "" then repo else pySplitLast '/' path
          let sorted := if children.isEmpty then children else sortNodes children
          .ok (.mk dir_name path ("dir") (some sorted) none, flat)

/-! ## Derived views of a tree -/

/-! Paths of the file-type nodes reachable in a tree (with helpers over child
lists, by mutual structural recursion). -/
mutual

/-- File-node paths of one tree. -/
def filePaths : FileNode → List String
  | .mk _ p t ch _ => (if t = "file" then [p] else []) ++ filePathsChildren ch

def filePathsChildren : Option (List FileNode) → List String
  | none => []
  | some cs => filePathsList cs

def filePathsList : List FileNode → List String
  | [] => []
  | c :: cs => filePaths c ++ filePathsList cs

end

/-! Sortedness of every directory node of a tree. -/
mutual

/-- Every directory node of the tree has its child list sorted by the key of
main.py line 194 (adjacent-pair form of the Python sort order). -/
def treeSortedB : FileNode → Bool
  | .mk _ _ _ ch _ => childrenSortedB ch

def childrenSortedB : Option (List FileNode) → Bool
  | none => true
  | some cs => chainSortedB nodeLtB cs && subtreesSortedB cs

def subtreesSortedB : List FileNode → Bool
  | [] => true
  | c :: cs => treeSortedB c && subtreesSortedB cs

end

/-! ## `generate_text_tree` (main.py lines 72-82) -/

mutual

/-- The lines appended by one call of `generate_text_tree`; children are
rendered only when the node is a directory with a truthy (nonempty) child
list. -/
def generate_text_tree : FileNode → String → Bool → List String
  | .mk nm _ t ch _, pfx, is_last_sibling =>
    let connector := if is_last_sibling then ("└── ") else ("├── ")
    let line := pfx ++ connector ++ nm ++ (if t = "dir" then ("/") else (""))
    if t = "dir" then
      match ch with
      | some (c :: cs) =>
          line :: generateTextTreeChildren (c :: cs)
            (pfx ++ (if is_last_sibling then ("    ") else ("│   ")))
      | _ => [line]
    else [line]

def generateTextTreeChildren : List FileNode → String → List String
  | [], _ => []
  | [c], pfx => generate_text_tree c pfx true
  | c :: c2 :: cs, pfx =>
      generate_text_tree c pfx false ++ generateTextTreeChildren (c2 :: cs) pfx

end

/-! ## Markdown assembly (`fetch_repo_api`, main.py lines 231-267) -/

/-- The text-tree lines of lines 232-237: the root name with a `/` suffix,
then the rendered top-level children (only when the child list is truthy). -/
def textTreeLines (repo_tree_root : FileNode) : List String :=
  (repo_tree_root.name ++ "/") ::
    (match repo_tree_root.children with
     | some (c :: cs) => generateTextTreeChildren (c :: cs) ("")
     | _ => [])

/-- The code-fence language of line 261-264: the whole path is split on `.`
(the last piece, lowercased) whenever the path contains a dot anywhere, then
mapped through `lang_map` with fallback `lang if lang else "text"`. -/
def display_lang (path : String) : String :=
  let lang := if path.data.contains ('.') then lowerStr (pySplitLast '.' path) else ("")
  if lang = "js" then ("javascript")
  else if lang = "py" then ("python")
  else if lang = "md" then ("markdown")
  else if lang = "yml" then ("yaml")
  else if lang = "sh" then ("bash")
  else if lang = "" then ("text")
  else lang

/-- Python `<` on the markdown sort key `x['path'].lower()` (line 250). -/
def flatPathLt (a b : String × String) : Bool :=
  charListLt (lowerStr a.1).data (lowerStr b.1).data

/-- The stable sort of the flat list by lowercased path (line 250). -/
def sortFlatByPath : List (String × String) → List (String × String) :=
  sortByLt flatPathLt

/-- The `markdown_parts` appended for one flat entry (lines 257-265). -/
def fileEntryParts (p c : String) : List String :=
  ("### File: `" ++ p ++ "`\n") ::
    (if is_binary_file p then [c ++ "\n\n"]
     else ["```" ++ display_lang p ++ "\n" ++ c ++ "\n```\n\n"])

/-- The `combined_markdown` string of lines 240-267, as a function of the
traversal output. -/
def fetch_repo_api_markdown (owner repo_name : String) (repo_tree_root : FileNode)
    (all_files_data_flat : List (String × String)) : String :=
  let text_tree_string := String.intercalate "\n" (textTreeLines repo_tree_root)
  let markdown_parts :=
    ["# Repository: " ++ owner ++ "/" ++ repo_name ++ "\n\n",
     "## Repository Structure\n\n```text\n" ++ text_tree_string ++ "\n```\n\n",
     "---\n\n## File Contents\n\n"] ++
    (sortFlatByPath all_files_data_flat).flatMap (fun fd => fileEntryParts fd.1 fd.2)
  String.join markdown_parts

/-! ## Concrete modelled remotes used by the example conjuncts and witnesses -/

/-- A remote that is never consulted (for testing the pure content policy). -/
def apiUnused : Api where
  listing := fun _ => .success .other
  download := fun _ => .failure ("unused")

/-- Root listing with one healthy file and one file whose raw download fails. -/
def apiSoft : Api where
  listing := fun p =>
    if p = "" then
      .success (.arr
        [⟨"ok.txt", "ok.txt", "file", some ("u-ok"), none, none⟩,
         ⟨"bad.txt", "bad.txt", "file", some ("u-bad"), none, none⟩])
    else .success .other
  download := fun u => if u = "u-ok" then .success ("hello") else .failure ("boom")

/-- Root listing with one subdirectory whose own listing answers HTTP 404. -/
def apiHard : Api where
  listing := fun p =>
    if p = "" then
      .success (.arr [⟨"sub", "sub", "dir", none, none, none⟩])
    else .httpStatusError ⟨404, none, none, none⟩
  download := fun _ => .failure ("unused")

/-- Root listing `[b.py (file), A (dir), a.py (file)]`, directory `A` empty. -/
def apiSortExample : Api where
  listing := fun p =>
    if p = "" then
      .success (.arr
        [⟨"b.py", "b.py", "file", some ("u1"), none, none⟩,
         ⟨"A", "A", "dir", none, none, none⟩,
         ⟨"a.py", "a.py", "file", some ("u2"), none, none⟩])
    else if p = "A" then .success (.arr [])
    else .success .other
  download := fun u => if u = "u1" then .success ("bee") else .success ("ay")

/-- A remote whose listing answers HTTP 401 while the rate-limit-exhausted
signal (`X-RateLimit-Remaining: 0`) is present. -/
def apiRate401 : Api where
  listing := fun _ => .httpStatusError ⟨401, some ("API rate limit exceeded for 1.2.3.4."), none, some ("0")⟩
  download := fun _ => .failure ("unused")

/-- A remote whose listing answers HTTP 403 with the rate-limit-exhausted
signal. -/
def apiRate403 : Api where
  listing := fun _ =>
    .httpStatusError ⟨403, some ("API rate limit exceeded for 1.2.3.4."),
      some ("https://docs.github.com/rest"), some ("0")⟩
  download := fun _ => .failure ("unused")

/-- Root listing containing a symlink entry between two ordinary entries. -/
def apiWithSymlink : Api where
  listing := fun p =>
    if p = "" then
      .success (.arr
        [⟨"a.txt", "a.txt", "file", some ("ua"), none, none⟩,
         ⟨"link", "link", "symlink", some ("ul"), none, none⟩,
         ⟨"d", "d", "dir", none, none, none⟩])
    else if p = "d" then .success (.arr [])
    else .success .other
  download := fun _ => .success ("data")

/-- The same remote without the symlink entry. -/
def apiNoSymlink : Api where
  listing := fun p =>
    if p = "" then
      .success (.arr
        [⟨"a.txt", "a.txt", "file", some ("ua"), none, none⟩,
         ⟨"d", "d", "dir", none, none, none⟩])
    else if p = "d" then .success (.arr [])
    else .success .other
  download := fun _ => .success ("data")

/-- A file item with inline base64 content, a base64 encoding tag, and no
download URL. -/
def itemInlineB64 : Item :=
  ⟨"f.txt", "f.txt", "file", none, some ("aGVsbG8="), some ("base64")⟩

/-- The same remote as `apiSoft` but with every raw download succeeding
(the listing function is shared verbatim). -/
def apiSoftAllOk : Api where
  listing := apiSoft.listing
  download := fun _ => .success ("hello")

/-- `ListedFrom api p q`: starting a traversal at `p`, the directory path `q`
is reachable through chains of `dir`-typed entries of successful listings —
i.e. `q` is one of the paths whose listing the recursive traversal consults
(ignoring that Python stops at the first error). -/
inductive ListedFrom (api : Api) : String → String → Prop where
  | here (p : String) : ListedFrom api p p
  | child (p q : String) (items : List Item) (item : Item) :
      api.listing p = .success (.arr items) → item ∈ items → item.type = "dir" →
      ListedFrom api item.path q → ListedFrom api p q

/-! ## Spec-side URL shape (for the amended C4 claim) -/

/-- Allowed remainder after the repo segment, newline-free reading of the
regex tail: nothing, a bare slash, or a `/tree/<ref...>` part whose ref is
nonempty and does not start with a slash (everything after the ref, including
a trailing slash, is absorbed by `.*`). -/
def suffixCoreB (s : List Char) : Bool :=
  decide (s = []) || decide (s = ['/']) ||
    (("/tree/").data.isPrefixOf s && decide (s.drop 6 ≠ []) &&
      decide ((s.drop 6).head? ≠ some '/'))

/-- Allowed remainder including the optional `.git` before the tree part. -/
def suffixOkB (s : List Char) : Bool :=
  suffixCoreB s || ((".git").data.isPrefixOf s && suffixCoreB (s.drop 4))

/-- Spec-side shape of a well-formed repository URL with owner `o` and repo
`r`: the literal host prefix, a nonempty slash-free owner segment, a nonempty
slash- and dot-free repo segment, then an allowed suffix
(`[.git][/tree/<ref>[/<subpath>]][/]`). -/
def UrlShape (url : String) (o r : String) : Prop :=
  ∃ s : List Char,
    url.data = ("https://github.com/").data ++ o.data ++ '/' :: (r.data ++ s)
    ∧ o.data ≠ [] ∧ (∀ c ∈ o.data, c ≠ '/')
    ∧ r.data ≠ [] ∧ (∀ c ∈ r.data, c ≠ '/' ∧ c ≠ '.')
    ∧ suffixOkB s = true

/-! ## Generic sorting lemmas: `sortByLt` permutes and sorts -/

theorem insertBy_perm (lt : α → α → Bool) (x : α) :
    ∀ l : List α, (insertBy lt x l).Perm (x :: l)
  | [] => by simp [insertBy]
  | y :: ys => by
    simp only [insertBy]
    by_cases h : lt y x = true
    · simp only [h, if_true]
      exact ((insertBy_perm lt x ys).cons y).trans (List.Perm.swap x y ys)
    · simp [h]

theorem sortByLt_perm (lt : α → α → Bool) : ∀ l : List α, (sortByLt lt l).Perm l
  | [] => by simp [sortByLt]
  | x :: xs => by
    simpa [sortByLt] using (insertBy_perm lt x (sortByLt lt xs)).trans
      ((sortByLt_perm lt xs).cons x)

theorem chainSortedB_insertBy (lt : α → α → Bool)
    (hasym : ∀ a b, lt a b = true → lt b a = false) (x : α) :
    ∀ l : List α, chainSortedB lt l = true → chainSortedB lt (insertBy lt x l) = true
  | [], _ => by simp [insertBy, chainSortedB]
  | [y], h => by
    simp only [insertBy]
    by_cases hyx : lt y x = true
    · simp [hyx, chainSortedB, hasym _ _ hyx]
    · have hyx' : lt y x = false := by simpa using hyx
      simp [hyx', chainSortedB]
  | y :: z :: t, h => by
    have hzy : lt z y = false := by
      have := h
      simp only [chainSortedB, Bool.and_eq_true, Bool.not_eq_true'] at this
      exact this.1
    have htail : chainSortedB lt (z :: t) = true := by
      have := h
      simp only [chainSortedB, Bool.and_eq_true, Bool.not_eq_true'] at this
      simpa [chainSortedB] using this.2
    simp only [insertBy]
    by_cases hyx : lt y x = true
    · simp only [hyx, if_true]
      have hins := chainSortedB_insertBy lt hasym x (z :: t) htail
      simp only [insertBy] at hins ⊢
      by_cases hzx : lt z x = true
      · simp only [hzx, if_true] at hins ⊢
        simpa [chainSortedB, hzy] using hins
      · simp only [hzx, if_false, Bool.false_eq_true] at hins ⊢
        have hxy : lt x y = false := hasym _ _ hyx
        simpa [chainSortedB, hxy] using hins
    · have hyx' : lt y x = false := by simpa using hyx
      simp only [hyx', Bool.false_eq_true, if_false]
      simp only [chainSortedB, Bool.and_eq_true, Bool.not_eq_true']
      exact ⟨hyx', by simpa [chainSortedB, hzy] using htail⟩

theorem chainSortedB_sortByLt (lt : α → α → Bool)
    (hasym : ∀ a b, lt a b = true → lt b a = false) :
    ∀ l : List α, chainSortedB lt (sortByLt lt l) = true
  | [] => by simp [sortByLt, chainSortedB]
  | x :: xs => chainSortedB_insertBy lt hasym x _ (chainSortedB_sortByLt lt hasym xs)

/-! ## Asymmetry of the comparison keys -/

theorem charListLt_asymm : ∀ a b : List Char,
    charListLt a b = true → charListLt b a = false
  | a, [], h => by cases a <;> simp [charListLt] at h
  | [], _ :: _, _ => by simp [charListLt]
  | x :: xs, y :: ys, h => by
    simp only [charListLt, Bool.or_eq_true, Bool.and_eq_true, decide_eq_true_eq] at h ⊢
    rcases h with h | ⟨hxy, hrec⟩
    · have h1 : ¬ y.toNat < x.toNat := Nat.lt_asymm h
      have h2 : y ≠ x := by
        intro e; subst e; exact Nat.lt_irrefl _ h
      simp [h1, h2]
    · subst hxy
      have h1 : ¬ x.toNat < x.toNat := Nat.lt_irrefl _
      simp [h1, charListLt_asymm xs ys hrec]

theorem nodeLtB_asymm (a b : FileNode) (h : nodeLtB a b = true) : nodeLtB b a = false := by
  simp only [nodeLtB, Bool.or_eq_true, Bool.and_eq_true, decide_eq_true_eq] at h ⊢
  rcases h with h | ⟨heq, hlt⟩
  · have h1 : ¬ nodeKeyRank b < nodeKeyRank a := Nat.lt_asymm h
    have h2 : ¬ nodeKeyRank b = nodeKeyRank a := by omega
    simp [h1, h2]
  · have h1 : ¬ nodeKeyRank b < nodeKeyRank a := by omega
    simp [h1, heq, charListLt_asymm _ _ hlt]

theorem flatPathLt_asymm (a b : String × String) (h : flatPathLt a b = true) :
    flatPathLt b a = false :=
  charListLt_asymm _ _ h

/-! ## Membership views of the tree helpers -/

theorem filePathsList_eq_flatMap : ∀ cs : List FileNode,
    filePathsList cs = cs.flatMap filePaths
  | [] => by simp [filePathsList]
  | c :: cs => by simp [filePathsList, filePathsList_eq_flatMap cs]

theorem mem_filePathsList {q : String} {cs : List FileNode} :
    q ∈ filePathsList cs ↔ ∃ c ∈ cs, q ∈ filePaths c := by
  simp [filePathsList_eq_flatMap]

theorem subtreesSortedB_eq_all : ∀ cs : List FileNode,
    subtreesSortedB cs = cs.all treeSortedB
  | [] => by simp [subtreesSortedB]
  | c :: cs => by simp [subtreesSortedB, subtreesSortedB_eq_all cs]

theorem mem_filePathsList_of_perm {cs cs' : List FileNode} (h : cs.Perm cs')
    {q : String} : q ∈ filePathsList cs ↔ q ∈ filePathsList cs' := by
  simp only [mem_filePathsList]
  constructor <;> rintro ⟨c, hc, hq⟩
  · exact ⟨c, h.mem_iff.mp hc, hq⟩
  · exact ⟨c, h.mem_iff.mpr hc, hq⟩

theorem subtreesSortedB_of_perm {cs cs' : List FileNode} (h : cs.Perm cs')
    (hs : subtreesSortedB cs = true) : subtreesSortedB cs' = true := by
  rw [subtreesSortedB_eq_all] at hs ⊢
  rw [List.all_eq_true] at hs ⊢
  exact fun c hc => hs c (h.mem_iff.mpr hc)

/-! ## Invariants of the directory loop and the traversal -/

theorem process_listing_items_flat_paths (api : Api)
    (recur : String → Except HTTPError (FileNode × List (String × String)))
    (hrec : ∀ p t f, recur p = .ok (t, f) →
      ∀ q, (q ∈ f.map Prod.fst ↔ q ∈ filePaths t)) :
    ∀ (items : List Item) (ns : List FileNode) (flat : List (String × String)),
      process_listing_items api recur items = .ok (ns, flat) →
      ∀ q, (q ∈ flat.map Prod.fst ↔ q ∈ filePathsList ns)
  | [], ns, flat, h, q => by
    simp only [process_listing_items, Except.ok.injEq, Prod.mk.injEq] at h
    obtain ⟨h1, h2⟩ := h
    subst h1; subst h2
    simp [filePathsList]
  | item :: rest, ns, flat, h, q => by
    by_cases hf : item.type = "file"
    · rw [process_listing_items, if_pos hf] at h
      cases hrest : process_listing_items api recur rest with
      | error e => rw [hrest] at h; exact absurd h (by simp)
      | ok pr =>
        obtain ⟨ns', flat'⟩ := pr
        rw [hrest] at h
        simp only [Except.ok.injEq, Prod.mk.injEq] at h
        obtain ⟨h1, h2⟩ := h
        subst h1; subst h2
        have ih := process_listing_items_flat_paths api recur hrec rest ns' flat' hrest q
        simp only [List.map_cons, List.mem_cons, filePathsList, filePaths,
          filePathsChildren, hf, if_pos, List.mem_append, List.mem_singleton,
          List.append_nil, List.nil_append]
        rw [ih]
        simp
    · by_cases hd : item.type = "dir"
      · rw [process_listing_items, if_neg hf, if_pos hd] at h
        cases hsub : recur item.path with
        | error e => rw [hsub] at h; exact absurd h (by simp)
        | ok pr =>
          obtain ⟨sub, subFlat⟩ := pr
          rw [hsub] at h
          cases hrest : process_listing_items api recur rest with
          | error e => rw [hrest] at h; exact absurd h (by simp)
          | ok pr2 =>
            obtain ⟨ns', flat'⟩ := pr2
            rw [hrest] at h
            simp only [Except.ok.injEq, Prod.mk.injEq] at h
            obtain ⟨h1, h2⟩ := h
            subst h1; subst h2
            have ih := process_listing_items_flat_paths api recur hrec rest ns' flat' hrest q
            have hs := hrec item.path sub subFlat hsub q
            simp only [List.map_append, List.mem_append, filePathsList]
            rw [ih, hs]
      · rw [process_listing_items, if_neg hf, if_neg hd] at h
        exact process_listing_items_flat_paths api recur hrec rest ns flat h q

theorem process_listing_items_sorted (api : Api)
    (recur : String → Except HTTPError (FileNode × List (String × String)))
    (hrec : ∀ p t f, recur p = .ok (t, f) → treeSortedB t = true) :
    ∀ (items : List Item) (ns : List FileNode) (flat : List (String × String)),
      process_listing_items api recur items = .ok (ns, flat) →
      subtreesSortedB ns = true
  | [], ns, flat, h => by
    simp only [process_listing_items, Except.ok.injEq, Prod.mk.injEq] at h
    obtain ⟨h1, h2⟩ := h
    subst h1
    simp [subtreesSortedB]
  | item :: rest, ns, flat, h => by
    by_cases hf : item.type = "file"
    · rw [process_listing_items, if_pos hf] at h
      cases hrest : process_listing_items api recur rest with
      | error e => rw [hrest] at h; exact absurd h (by simp)
      | ok pr =>
        obtain ⟨ns', flat'⟩ := pr
        rw [hrest] at h
        simp only [Except.ok.injEq, Prod.mk.injEq] at h
        obtain ⟨h1, h2⟩ := h
        subst h1
        have ih := process_listing_items_sorted api recur hrec rest ns' flat' hrest
        simp [subtreesSortedB, treeSortedB, childrenSortedB, ih]
    · by_cases hd : item.type = "dir"
      · rw [process_listing_items, if_neg hf, if_pos hd] at h
        cases hsub : recur item.path with
        | error e => rw [hsub] at h; exact absurd h (by simp)
        | ok pr =>
          obtain ⟨sub, subFlat⟩ := pr
          rw [hsub] at h
          cases hrest : process_listing_items api recur rest with
          | error e => rw [hrest] at h; exact absurd h (by simp)
          | ok pr2 =>
            obtain ⟨ns', flat'⟩ := pr2
            rw [hrest] at h
            simp only [Except.ok.injEq, Prod.mk.injEq] at h
            obtain ⟨h1, h2⟩ := h
            subst h1
            have ih := process_listing_items_sorted api recur hrec rest ns' flat' hrest
            simp [subtreesSortedB, hrec item.path sub subFlat hsub, ih]
      · rw [process_listing_items, if_neg hf, if_neg hd] at h
        exact process_listing_items_sorted api recur hrec rest ns flat h

theorem ifEmpty_sortNodes_perm (cs : List FileNode) :
    (if cs.isEmpty then cs else sortNodes cs).Perm cs := by
  by_cases h : cs.isEmpty
  · simp [h]
  · simp only [h, Bool.false_eq_true, if_false]
    exact sortByLt_perm nodeLtB cs

theorem ifEmpty_sortNodes_chain (cs : List FileNode) :
    chainSortedB nodeLtB (if cs.isEmpty then cs else sortNodes cs) = true := by
  by_cases h : cs.isEmpty
  · have : cs = [] := by simpa [List.isEmpty_iff] using h
    subst this
    simp [chainSortedB]
  · simp only [h, Bool.false_eq_true, if_false]
    exact chainSortedB_sortByLt nodeLtB nodeLtB_asymm cs

theorem fetch_repo_contents_recursive_flat_paths :
    ∀ (fuel : Nat) (api : Api) (u e : Option String) (o r p : String)
      (t : FileNode) (f : List (String × String)),
      fetch_repo_contents_recursive api u e o r fuel p = .ok (t, f) →
      ∀ q, (q ∈ f.map Prod.fst ↔ q ∈ filePaths t)
  | 0, api, u, e, o, r, p, t, f, h, q => by
    simp [fetch_repo_contents_recursive] at h
  | fuel + 1, api, u, e, o, r, p, t, f, h, q => by
    rw [fetch_repo_contents_recursive] at h
    cases hL : api.listing p with
    | requestError msg => rw [hL] at h; exact absurd h (by simp)
    | httpStatusError resp => rw [hL] at h; exact absurd h (by simp)
    | success body =>
      rw [hL] at h
      cases body with
      | other => exact absurd h (by simp)
      | obj item =>
        by_cases hf : item.type = "file"
        · simp only [hf, if_true] at h
          simp only [Except.ok.injEq, Prod.mk.injEq] at h
          obtain ⟨h1, h2⟩ := h
          subst h1; subst h2
          simp [filePaths, filePathsChildren]
        · simp only [hf, Bool.false_eq_true, if_false] at h
          exact absurd h (by simp)
      | arr items =>
        simp only [] at h
        cases hP : process_listing_items api
            (fetch_repo_contents_recursive api u e o r fuel) items with
        | error er => rw [hP] at h; exact absurd h (by simp)
        | ok pr =>
          obtain ⟨children, flat'⟩ := pr
          rw [hP] at h
          simp only [Except.ok.injEq, Prod.mk.injEq] at h
          obtain ⟨h1, h2⟩ := h
          subst h1; subst h2
          have ih : ∀ p' t' f', fetch_repo_contents_recursive api u e o r fuel p' = .ok (t', f') →
              ∀ q', (q' ∈ f'.map Prod.fst ↔ q' ∈ filePaths t') :=
            fun p' t' f' hh q' =>
              fetch_repo_contents_recursive_flat_paths fuel api u e o r p' t' f' hh q'
          have hmain := process_listing_items_flat_paths api
            (fetch_repo_contents_recursive api u e o r fuel) ih items children flat' hP q
          rw [hmain]
          simp only [filePaths, filePathsChildren]
          rw [if_neg (by decide : ¬ ("dir" : String) = "file")]
          simp only [List.nil_append]
          exact (mem_filePathsList_of_perm (ifEmpty_sortNodes_perm children)).symm

theorem fetch_repo_contents_recursive_sorted :
    ∀ (fuel : Nat) (api : Api) (u e : Option String) (o r p : String)
      (t : FileNode) (f : List (String × String)),
      fetch_repo_contents_recursive api u e o r fuel p = .ok (t, f) →
      treeSortedB t = true
  | 0, api, u, e, o, r, p, t, f, h => by
    simp [fetch_repo_contents_recursive] at h
  | fuel + 1, api, u, e, o, r, p, t, f, h => by
    rw [fetch_repo_contents_recursive] at h
    cases hL : api.listing p with
    | requestError msg => rw [hL] at h; exact absurd h (by simp)
    | httpStatusError resp => rw [hL] at h; exact absurd h (by simp)
    | success body =>
      rw [hL] at h
      cases body with
      | other => exact absurd h (by simp)
      | obj item =>
        by_cases hf : item.type = "file"
        · simp only [hf, if_true] at h
          simp only [Except.ok.injEq, Prod.mk.injEq] at h
          obtain ⟨h1, h2⟩ := h
          subst h1
          simp [treeSortedB, childrenSortedB]
        · simp only [hf, Bool.false_eq_true, if_false] at h
          exact absurd h (by simp)
      | arr items =>
        simp only [] at h
        cases hP : process_listing_items api
            (fetch_repo_contents_recursive api u e o r fuel) items with
        | error er => rw [hP] at h; exact absurd h (by simp)
        | ok pr =>
          obtain ⟨children, flat'⟩ := pr
          rw [hP] at h
          simp only [Except.ok.injEq, Prod.mk.injEq] at h
          obtain ⟨h1, h2⟩ := h
          subst h1
          have ih : ∀ p' t' f', fetch_repo_contents_recursive api u e o r fuel p' = .ok (t', f') →
              treeSortedB t' = true :=
            fun p' t' f' hh =>
              fetch_repo_contents_recursive_sorted fuel api u e o r p' t' f' hh
          have hsub := process_listing_items_sorted api
            (fetch_repo_contents_recursive api u e o r fuel) ih items children flat' hP
          simp only [treeSortedB, childrenSortedB, Bool.and_eq_true]
          exact ⟨ifEmpty_sortNodes_chain children,
            subtreesSortedB_of_perm (ifEmpty_sortNodes_perm children).symm hsub⟩

/-! ## Helpers: listing failures, string joins, skipped items -/

theorem fetch_listing_http_error (api : Api) (u e : Option String) (o r p : String)
    (fuel : Nat) (resp : HttpErrorResponse)
    (hL : api.listing p = .httpStatusError resp) :
    fetch_repo_contents_recursive api u e o r (fuel + 1) p =
      .error ⟨resp.status,
        listing_error_detail o r p
          (GITHUB_API_BASE_URL ++ "/repos/" ++ o ++ "/" ++ r ++ "/contents/" ++ p)
          (pyTruthy (pyOr u e)) resp⟩ := by
  rw [fetch_repo_contents_recursive, hL]

theorem strAppend_assoc : ∀ a b c : String, a ++ b ++ c = a ++ (b ++ c)
  | ⟨x⟩, ⟨y⟩, ⟨z⟩ => congrArg String.mk (List.append_assoc x y z)

theorem strNilAppend : ∀ a : String, ("" : String) ++ a = a
  | ⟨_⟩ => rfl

theorem strAppendNil : ∀ a : String, a ++ ("" : String) = a
  | ⟨x⟩ => congrArg String.mk (List.append_nil x)

theorem strFoldlAppend : ∀ (l : List String) (x y : String),
    l.foldl (fun r s => r ++ s) (x ++ y) = x ++ l.foldl (fun r s => r ++ s) y
  | [], x, y => rfl
  | a :: l, x, y => by
    rw [List.foldl_cons, List.foldl_cons, strAppend_assoc, strFoldlAppend l x (y ++ a)]

theorem strJoin_cons (a : String) (l : List String) :
    String.join (a :: l) = a ++ String.join l := by
  have h2 := strFoldlAppend l a ("")
  rw [strAppendNil a] at h2
  have h1 : String.join (a :: l) = l.foldl (fun r s => r ++ s) (("" : String) ++ a) := rfl
  rw [h1, strNilAppend]
  exact h2

theorem process_listing_items_skip (api : Api)
    (recur : String → Except HTTPError (FileNode × List (String × String)))
    (item : Item) (hf : item.type ≠ "file") (hd : item.type ≠ "dir") :
    ∀ (xs ys : List Item),
      process_listing_items api recur (xs ++ item :: ys) =
        process_listing_items api recur (xs ++ ys)
  | [], ys => by
    rw [List.nil_append, List.nil_append, process_listing_items, if_neg hf, if_neg hd]
  | x :: xs, ys => by
    have ih := process_listing_items_skip api recur item hf hd xs ys
    rw [List.cons_append, List.cons_append]
    simp only [process_listing_items, ih]

/-! ## Universal hard/soft failure helpers -/

theorem process_listing_items_dir_ok (api : Api)
    (recur : String → Except HTTPError (FileNode × List (String × String))) :
    ∀ (items : List Item) (ns : List FileNode) (flat : List (String × String)),
      process_listing_items api recur items = .ok (ns, flat) →
      ∀ item ∈ items, item.type = "dir" →
        ∃ sub subFlat, recur item.path = .ok (sub, subFlat)
  | [], ns, flat, _, item, hmem, _ => absurd hmem (by simp)
  | x :: rest, ns, flat, h, item, hmem, hdir => by
    by_cases hf : x.type = "file"
    · rw [process_listing_items, if_pos hf] at h
      cases hrest : process_listing_items api recur rest with
      | error e => rw [hrest] at h; exact absurd h (by simp)
      | ok pr =>
        obtain ⟨ns', flat'⟩ := pr
        rcases List.mem_cons.mp hmem with rfl | hmem'
        · rw [hdir] at hf; exact absurd hf (by decide)
        · exact process_listing_items_dir_ok api recur rest ns' flat' hrest item hmem' hdir
    · by_cases hd : x.type = "dir"
      · rw [process_listing_items, if_neg hf, if_pos hd] at h
        cases hsub : recur x.path with
        | error e => rw [hsub] at h; exact absurd h (by simp)
        | ok v =>
          obtain ⟨sub, subFlat⟩ := v
          rw [hsub] at h
          cases hrest : process_listing_items api recur rest with
          | error e => rw [hrest] at h; exact absurd h (by simp)
          | ok pr =>
            obtain ⟨ns', flat'⟩ := pr
            rcases List.mem_cons.mp hmem with rfl | hmem'
            · exact ⟨sub, subFlat, hsub⟩
            · exact process_listing_items_dir_ok api recur rest ns' flat' hrest item hmem' hdir
      · rw [process_listing_items, if_neg hf, if_neg hd] at h
        rcases List.mem_cons.mp hmem with rfl | hmem'
        · exact absurd hdir hd
        · exact process_listing_items_dir_ok api recur rest ns flat h item hmem' hdir

theorem process_listing_items_file_mem (api : Api)
    (recur : String → Except HTTPError (FileNode × List (String × String))) :
    ∀ (items : List Item) (ns : List FileNode) (flat : List (String × String)),
      process_listing_items api recur items = .ok (ns, flat) →
      ∀ item ∈ items, item.type = "file" →
        (item.path, fetchDirFileContent api item) ∈ flat
  | [], ns, flat, _, item, hmem, _ => absurd hmem (by simp)
  | x :: rest, ns, flat, h, item, hmem, hfile => by
    by_cases hf : x.type = "file"
    · rw [process_listing_items, if_pos hf] at h
      cases hrest : process_listing_items api recur rest with
      | error e => rw [hrest] at h; exact absurd h (by simp)
      | ok pr =>
        obtain ⟨ns', flat'⟩ := pr
        rw [hrest] at h
        simp only [Except.ok.injEq, Prod.mk.injEq] at h
        obtain ⟨h1, h2⟩ := h
        subst h1; subst h2
        rcases List.mem_cons.mp hmem with rfl | hmem'
        · exact List.mem_cons_self _ _
        · exact List.mem_cons_of_mem _
            (process_listing_items_file_mem api recur rest ns' flat' hrest item hmem' hfile)
    · by_cases hd : x.type = "dir"
      · rw [process_listing_items, if_neg hf, if_pos hd] at h
        cases hsub : recur x.path with
        | error e => rw [hsub] at h; exact absurd h (by simp)
        | ok v =>
          obtain ⟨sub, subFlat⟩ := v
          rw [hsub] at h
          cases hrest : process_listing_items api recur rest with
          | error e => rw [hrest] at h; exact absurd h (by simp)
          | ok pr =>
            obtain ⟨ns', flat'⟩ := pr
            rw [hrest] at h
            simp only [Except.ok.injEq, Prod.mk.injEq] at h
            obtain ⟨h1, h2⟩ := h
            subst h1; subst h2
            rcases List.mem_cons.mp hmem with rfl | hmem'
            · exact absurd hfile hf
            · exact List.mem_append_right _
                (process_listing_items_file_mem api recur rest ns' flat' hrest item hmem' hfile)
      · rw [process_listing_items, if_neg hf, if_neg hd] at h
        rcases List.mem_cons.mp hmem with rfl | hmem'
        · exact absurd hfile hf
        · exact process_listing_items_file_mem api recur rest ns flat h item hmem' hfile

theorem fetchDirFileContent_failure (api : Api) (item : Item) (u msg : String)
    (hb : is_binary_file item.path = false)
    (hu : pyOr item.download_url none = some u)
    (hd : api.download u = .failure msg) :
    fetchDirFileContent api item =
      "[Error fetching/decoding text content for " ++ item.path ++ ": " ++ msg ++ "]" := by
  simp only [fetchDirFileContent, hb, Bool.false_eq_true, if_false, hu, hd]

theorem fetch_ok_listing_success :
    ∀ (fuel : Nat) (api : Api) (u e : Option String) (o r p : String)
      (t : FileNode) (f : List (String × String)),
      fetch_repo_contents_recursive api u e o r fuel p = .ok (t, f) →
      ∃ body, api.listing p = .success body
  | 0, api, u, e, o, r, p, t, f, h => by
    simp [fetch_repo_contents_recursive] at h
  | fuel + 1, api, u, e, o, r, p, t, f, h => by
    rw [fetch_repo_contents_recursive] at h
    cases hL : api.listing p with
    | requestError msg => rw [hL] at h; exact absurd h (by simp)
    | httpStatusError resp => rw [hL] at h; exact absurd h (by simp)
    | success body => exact ⟨body, rfl⟩

theorem fetch_ok_child (api : Api) (u e : Option String) (o r : String)
    (fuel : Nat) (p : String) (items : List Item) (item : Item)
    (t : FileNode) (f : List (String × String))
    (h : fetch_repo_contents_recursive api u e o r (fuel + 1) p = .ok (t, f))
    (hL : api.listing p = .success (.arr items))
    (hmem : item ∈ items) (hdir : item.type = "dir") :
    ∃ t' f', fetch_repo_contents_recursive api u e o r fuel item.path = .ok (t', f') := by
  rw [fetch_repo_contents_recursive, hL] at h
  simp only [] at h
  cases hP : process_listing_items api
      (fetch_repo_contents_recursive api u e o r fuel) items with
  | error e2 => rw [hP] at h; exact absurd h (by simp)
  | ok pr =>
    obtain ⟨children, flat'⟩ := pr
    exact process_listing_items_dir_ok api
      (fetch_repo_contents_recursive api u e o r fuel) items children flat' hP item hmem hdir

theorem fetch_ok_all_listings {api : Api} {p q : String} (hreach : ListedFrom api p q) :
    ∀ (fuel : Nat) (u e : Option String) (o r : String) (t : FileNode)
      (f : List (String × String)),
      fetch_repo_contents_recursive api u e o r fuel p = .ok (t, f) →
      ∃ body, api.listing q = .success body := by
  induction hreach with
  | here p =>
    intro fuel u e o r t f h
    exact fetch_ok_listing_success fuel api u e o r p t f h
  | child p q items item hL hmem hdir _ ih =>
    intro fuel u e o r t f h
    cases fuel with
    | zero => simp [fetch_repo_contents_recursive] at h
    | succ g =>
      obtain ⟨t', f', hok⟩ := fetch_ok_child api u e o r g p items item t f h hL hmem hdir
      exact ih g u e o r t' f' hok

theorem process_listing_items_error_iff (api api' : Api)
    (recur recur' : String → Except HTTPError (FileNode × List (String × String)))
    (hrec : ∀ p err, recur p = .error err ↔ recur' p = .error err) :
    ∀ (items : List Item) (err : HTTPError),
      (process_listing_items api recur items = .error err ↔
        process_listing_items api' recur' items = .error err)
  | [], err => by simp [process_listing_items]
  | item :: rest, err => by
    by_cases hf : item.type = "file"
    · rw [process_listing_items, if_pos hf, process_listing_items, if_pos hf]
      cases hr : process_listing_items api recur rest with
      | error e =>
        have hr' : process_listing_items api' recur' rest = .error e :=
          (process_listing_items_error_iff api api' recur recur' hrec rest e).mp hr
        rw [hr']
      | ok pr =>
        obtain ⟨ns, flat⟩ := pr
        cases hr2 : process_listing_items api' recur' rest with
        | error e =>
          have := (process_listing_items_error_iff api api' recur recur' hrec rest e).mpr hr2
          rw [hr] at this
          exact absurd this (by simp)
        | ok pr2 =>
          obtain ⟨ns2, flat2⟩ := pr2
          simp
    · by_cases hd : item.type = "dir"
      · rw [process_listing_items, if_neg hf, if_pos hd,
          process_listing_items, if_neg hf, if_pos hd]
        cases hs : recur item.path with
        | error e =>
          have hs' : recur' item.path = .error e := (hrec item.path e).mp hs
          rw [hs']
        | ok v =>
          cases hs2 : recur' item.path with
          | error e =>
            have := (hrec item.path e).mpr hs2
            rw [hs] at this
            exact absurd this (by simp)
          | ok v2 =>
            obtain ⟨sub, subFlat⟩ := v
            obtain ⟨sub2, subFlat2⟩ := v2
            cases hr : process_listing_items api recur rest with
            | error e =>
              have hr' : process_listing_items api' recur' rest = .error e :=
                (process_listing_items_error_iff api api' recur recur' hrec rest e).mp hr
              rw [hr']
            | ok pr =>
              obtain ⟨ns, flat⟩ := pr
              cases hr2 : process_listing_items api' recur' rest with
              | error e =>
                have := (process_listing_items_error_iff api api' recur recur' hrec rest e).mpr hr2
                rw [hr] at this
                exact absurd this (by simp)
              | ok pr2 =>
                obtain ⟨ns2, flat2⟩ := pr2
                simp
      · rw [process_listing_items, if_neg hf, if_neg hd,
          process_listing_items, if_neg hf, if_neg hd]
        exact process_listing_items_error_iff api api' recur recur' hrec rest err

theorem fetch_error_iff :
    ∀ (fuel : Nat) (api api' : Api), api.listing = api'.listing →
      ∀ (u e : Option String) (o r p : String) (err : HTTPError),
        (fetch_repo_contents_recursive api u e o r fuel p = .error err ↔
          fetch_repo_contents_recursive api' u e o r fuel p = .error err)
  | 0, api, api', hlist, u, e, o, r, p, err => by
    simp [fetch_repo_contents_recursive]
  | fuel + 1, api, api', hlist, u, e, o, r, p, err => by
    rw [fetch_repo_contents_recursive, fetch_repo_contents_recursive, ← hlist]
    cases hL : api.listing p with
    | requestError msg => exact Iff.rfl
    | httpStatusError resp => exact Iff.rfl
    | success body =>
      cases body with
      | other => exact Iff.rfl
      | obj item =>
        simp only []
        by_cases hfile : item.type = "file"
        · rw [if_pos hfile, if_pos hfile]
          simp
        · rw [if_neg hfile, if_neg hfile]
      | arr items =>
        simp only []
        have hrec : ∀ p' err',
            fetch_repo_contents_recursive api u e o r fuel p' = .error err' ↔
            fetch_repo_contents_recursive api' u e o r fuel p' = .error err' :=
          fun p' err' => fetch_error_iff fuel api api' hlist u e o r p' err'
        cases hP : process_listing_items api
            (fetch_repo_contents_recursive api u e o r fuel) items with
        | error e2 =>
          have hP' : process_listing_items api'
              (fetch_repo_contents_recursive api' u e o r fuel) items = .error e2 :=
            (process_listing_items_error_iff api api' _ _ hrec items e2).mp hP
          rw [hP']
        | ok pr =>
          obtain ⟨children, flat'⟩ := pr
          cases hP' : process_listing_items api'
              (fetch_repo_contents_recursive api' u e o r fuel) items with
          | error e2 =>
            have := (process_listing_items_error_iff api api' _ _ hrec items e2).mpr hP'
            rw [hP] at this
            exact absurd this (by simp)
          | ok pr2 =>
            obtain ⟨children2, flat2⟩ := pr2
            simp

/-! ## Claim theorems -/

/-- C1: for every traversal, a failing directory listing is a hard failure
and a failing per-file download is a soft failure.  Universal conjuncts:
(1) any listing answering 404 at the requested path aborts with the NotFound
error; (2) whenever a fetch returns a tree, every directory listing reachable
from the requested path (through dir entries of successful listings, at any
depth) was a successful listing call — contrapositive: a failing listing call
anywhere in the traversed subtree means no tree is returned; (3) two remotes
with identical listings produce identical failure behavior — whether the
traversal errors, and with which error, never depends on the download
function, so a download failure can never abort a traversal; (4) in every
successfully processed listing, each file entry's flat-list content is
exactly `fetchDirFileContent`, which (5) for every failing download is the
placeholder embedding the error description.  Finally two concrete runs: a
404 on a nested subdirectory listing aborts the whole traversal, and a
failing download for `bad.txt` leaves the fetch successful with the inline
placeholder. -/
theorem claim_C1_hard_listing_soft_content :
    (∀ (api : Api) (u e : Option String) (o r p : String) (fuel : Nat)
        (resp : HttpErrorResponse),
        api.listing p = .httpStatusError resp → resp.status = 404 →
        fetch_repo_contents_recursive api u e o r (fuel + 1) p =
          .error ⟨404, "Repository or path not found: " ++ o ++ "/" ++ r ++ "/" ++ p⟩)
    ∧ (∀ (api : Api) (u e : Option String) (o r p q : String) (fuel : Nat)
        (t : FileNode) (f : List (String × String)),
        fetch_repo_contents_recursive api u e o r fuel p = .ok (t, f) →
        ListedFrom api p q → ∃ body, api.listing q = .success body)
    ∧ (∀ (api api' : Api), api.listing = api'.listing →
        ∀ (u e : Option String) (o r p : String) (fuel : Nat) (err : HTTPError),
        (fetch_repo_contents_recursive api u e o r fuel p = .error err ↔
          fetch_repo_contents_recursive api' u e o r fuel p = .error err))
    ∧ (∀ (api : Api)
        (recur : String → Except HTTPError (FileNode × List (String × String)))
        (items : List Item) (ns : List FileNode) (flat : List (String × String)),
        process_listing_items api recur items = .ok (ns, flat) →
        ∀ item ∈ items, item.type = "file" →
          (item.path, fetchDirFileContent api item) ∈ flat)
    ∧ (∀ (api : Api) (item : Item) (u msg : String),
        is_binary_file item.path = false →
        pyOr item.download_url none = some u →
        api.download u = .failure msg →
        fetchDirFileContent api item =
          "[Error fetching/decoding text content for " ++ item.path ++ ": " ++ msg ++ "]")
    ∧ fetch_repo_contents_recursive apiHard none none ("acme") ("widgets") 2 ("") =
        .error ⟨404, "Repository or path not found: acme/widgets/sub"⟩
    ∧ fetch_repo_contents_recursive apiSoft none none ("acme") ("widgets") 1 ("") =
        .ok (FileNode.mk ("widgets") ("") ("dir")
              (some [FileNode.mk ("bad.txt") ("bad.txt") ("file") none
                       (some ("[Error fetching/decoding text content for bad.txt: boom]")),
                     FileNode.mk ("ok.txt") ("ok.txt") ("file") none (some ("hello"))]) none,
             [(("ok.txt"), ("hello")),
              (("bad.txt"), ("[Error fetching/decoding text content for bad.txt: boom]"))]) := by
  refine ⟨?_, ?_, ?_, ?_, ?_, by rfl, by rfl⟩
  · intro api u e o r p fuel resp hL h404
    rw [fetch_listing_http_error api u e o r p fuel resp hL]
    simp [listing_error_detail, h404]
  · intro api u e o r p q fuel t f h hreach
    exact fetch_ok_all_listings hreach fuel u e o r t f h
  · intro api api' hlist u e o r p fuel err
    exact fetch_error_iff fuel api api' hlist u e o r p err
  · intro api recur items ns flat h item hmem hfile
    exact process_listing_items_file_mem api recur items ns flat h item hmem hfile
  · intro api item u msg hb hu hd
    exact fetchDirFileContent_failure api item u msg hb hu hd

/-- C1 witness: the universal conjuncts applied at concrete remotes — the
404 conjunct at `apiHard`, the reachable-listing conjunct and the
download-independence conjunct at `apiSoft` (against `apiSoftAllOk`, which
shares its listing function), and the flat-entry/placeholder conjuncts at the
failing-download item of `apiSoft`. -/
theorem claim_C1_witness :
    (Api.listing apiHard ("sub") = .httpStatusError ⟨404, none, none, none⟩
      ∧ fetch_repo_contents_recursive apiHard none none ("acme") ("widgets") 1 ("sub") =
          .error ⟨404, "Repository or path not found: acme/widgets/sub"⟩)
    ∧ (fetch_repo_contents_recursive apiSoft none none ("acme") ("widgets") 1 ("") =
        .ok (FileNode.mk ("widgets") ("") ("dir")
              (some [FileNode.mk ("bad.txt") ("bad.txt") ("file") none
                       (some ("[Error fetching/decoding text content for bad.txt: boom]")),
                     FileNode.mk ("ok.txt") ("ok.txt") ("file") none (some ("hello"))]) none,
             [(("ok.txt"), ("hello")),
              (("bad.txt"), ("[Error fetching/decoding text content for bad.txt: boom]"))])
      ∧ (∃ body, Api.listing apiSoft ("") = .success body))
    ∧ (Api.listing apiSoft = Api.listing apiSoftAllOk
      ∧ (fetch_repo_contents_recursive apiSoft none none ("acme") ("widgets") 1 ("") =
            .error ⟨404, ("x")⟩ ↔
          fetch_repo_contents_recursive apiSoftAllOk none none ("acme") ("widgets") 1 ("") =
            .error ⟨404, ("x")⟩))
    ∧ (process_listing_items apiSoft (fun _ => .error ⟨0, ("x")⟩)
          [⟨("ok.txt"), ("ok.txt"), ("file"), some ("u-ok"), none, none⟩,
           ⟨("bad.txt"), ("bad.txt"), ("file"), some ("u-bad"), none, none⟩] =
        .ok ([FileNode.mk ("ok.txt") ("ok.txt") ("file") none (some ("hello")),
              FileNode.mk ("bad.txt") ("bad.txt") ("file") none
                (some ("[Error fetching/decoding text content for bad.txt: boom]"))],
             [(("ok.txt"), ("hello")),
              (("bad.txt"), ("[Error fetching/decoding text content for bad.txt: boom]"))])
      ∧ ((Item.path ⟨("bad.txt"), ("bad.txt"), ("file"), some ("u-bad"), none, none⟩,
          fetchDirFileContent apiSoft
            ⟨("bad.txt"), ("bad.txt"), ("file"), some ("u-bad"), none, none⟩) ∈
          [(("ok.txt"), ("hello")),
           (("bad.txt"), ("[Error fetching/decoding text content for bad.txt: boom]"))]))
    ∧ (is_binary_file ("bad.txt") = false
      ∧ pyOr (some ("u-bad")) none = some ("u-bad")
      ∧ Api.download apiSoft ("u-bad") = .failure ("boom")
      ∧ fetchDirFileContent apiSoft
            ⟨("bad.txt"), ("bad.txt"), ("file"), some ("u-bad"), none, none⟩ =
          "[Error fetching/decoding text content for " ++ ("bad.txt") ++ ": " ++ ("boom") ++ "]") :=
  ⟨⟨rfl, claim_C1_hard_listing_soft_content.1 apiHard none none ("acme") ("widgets") ("sub")
      0 ⟨404, none, none, none⟩ rfl rfl⟩,
   ⟨rfl, claim_C1_hard_listing_soft_content.2.1 apiSoft none none ("acme") ("widgets")
      ("") ("") 1 _ _ rfl (ListedFrom.here (""))⟩,
   ⟨rfl, claim_C1_hard_listing_soft_content.2.2.1 apiSoft apiSoftAllOk rfl none none
      ("acme") ("widgets") ("") 1 ⟨404, ("x")⟩⟩,
   ⟨rfl, claim_C1_hard_listing_soft_content.2.2.2.1 apiSoft (fun _ => .error ⟨0, ("x")⟩)
      [⟨("ok.txt"), ("ok.txt"), ("file"), some ("u-ok"), none, none⟩,
       ⟨("bad.txt"), ("bad.txt"), ("file"), some ("u-bad"), none, none⟩] _ _ rfl
      ⟨("bad.txt"), ("bad.txt"), ("file"), some ("u-bad"), none, none⟩ (by simp) rfl⟩,
   ⟨rfl, rfl, rfl, claim_C1_hard_listing_soft_content.2.2.2.2.1 apiSoft
      ⟨("bad.txt"), ("bad.txt"), ("file"), some ("u-bad"), none, none⟩
      ("u-bad") ("boom") rfl rfl rfl⟩⟩

/-- C2: for every fetch that completes successfully, the paths of the flat
list are exactly the paths of the file-type nodes reachable in the returned
tree (stated as a membership equivalence, i.e. set equality). -/
theorem claim_C2_flat_tree_paths :
    ∀ (api : Api) (u e : Option String) (o r p : String) (fuel : Nat)
      (t : FileNode) (f : List (String × String)),
      fetch_repo_contents_recursive api u e o r fuel p = .ok (t, f) →
      ∀ q, (q ∈ f.map Prod.fst ↔ q ∈ filePaths t) :=
  fun api u e o r p fuel t f h q =>
    fetch_repo_contents_recursive_flat_paths fuel api u e o r p t f h q

/-- C2 witness: the theorem applied to the concrete remote `apiSoft`, at a
concrete query path. -/
theorem claim_C2_witness :
    fetch_repo_contents_recursive apiSoft none none ("acme") ("widgets") 1 ("") =
      .ok (FileNode.mk ("widgets") ("") ("dir")
            (some [FileNode.mk ("bad.txt") ("bad.txt") ("file") none
                     (some ("[Error fetching/decoding text content for bad.txt: boom]")),
                   FileNode.mk ("ok.txt") ("ok.txt") ("file") none (some ("hello"))]) none,
           [(("ok.txt"), ("hello")),
            (("bad.txt"), ("[Error fetching/decoding text content for bad.txt: boom]"))])
    ∧ ((("ok.txt") ∈ ([(("ok.txt"), ("hello")),
            (("bad.txt"), ("[Error fetching/decoding text content for bad.txt: boom]"))].map
            Prod.fst)) ↔
        (("ok.txt") ∈ filePaths (FileNode.mk ("widgets") ("") ("dir")
            (some [FileNode.mk ("bad.txt") ("bad.txt") ("file") none
                     (some ("[Error fetching/decoding text content for bad.txt: boom]")),
                   FileNode.mk ("ok.txt") ("ok.txt") ("file") none (some ("hello"))]) none))) :=
  ⟨rfl, claim_C2_flat_tree_paths apiSoft none none ("acme") ("widgets") ("") 1 _ _ rfl ("ok.txt")⟩

/-- C3: in every tree returned by a successful fetch, each directory node's
child list is sorted by the key (directories before files, then lowercased
name, adjacent-pair form); and the concrete listing
`[b.py (file), A (dir), a.py (file)]` comes back ordered
`[A (dir), a.py (file), b.py (file)]`. -/
theorem claim_C3_children_sorted :
    (∀ (api : Api) (u e : Option String) (o r p : String) (fuel : Nat)
        (t : FileNode) (f : List (String × String)),
        fetch_repo_contents_recursive api u e o r fuel p = .ok (t, f) →
        treeSortedB t = true)
    ∧ fetch_repo_contents_recursive apiSortExample none none ("acme") ("widgets") 2 ("") =
        .ok (FileNode.mk ("widgets") ("") ("dir")
              (some [FileNode.mk ("A") ("A") ("dir") (some []) none,
                     FileNode.mk ("a.py") ("a.py") ("file") none (some ("ay")),
                     FileNode.mk ("b.py") ("b.py") ("file") none (some ("bee"))]) none,
             [(("b.py"), ("bee")), (("a.py"), ("ay"))]) := by
  refine ⟨?_, by rfl⟩
  intro api u e o r p fuel t f h
  exact fetch_repo_contents_recursive_sorted fuel api u e o r p t f h

/-- C3 witness: the sortedness conjunct applied to the concrete remote
`apiSortExample`. -/
theorem claim_C3_witness :
    fetch_repo_contents_recursive apiSortExample none none ("acme") ("widgets") 2 ("") =
      .ok (FileNode.mk ("widgets") ("") ("dir")
            (some [FileNode.mk ("A") ("A") ("dir") (some []) none,
                   FileNode.mk ("a.py") ("a.py") ("file") none (some ("ay")),
                   FileNode.mk ("b.py") ("b.py") ("file") none (some ("bee"))]) none,
           [(("b.py"), ("bee")), (("a.py"), ("ay"))])
    ∧ treeSortedB (FileNode.mk ("widgets") ("") ("dir")
            (some [FileNode.mk ("A") ("A") ("dir") (some []) none,
                   FileNode.mk ("a.py") ("a.py") ("file") none (some ("ay")),
                   FileNode.mk ("b.py") ("b.py") ("file") none (some ("bee"))]) none) = true :=
  ⟨rfl, claim_C3_children_sorted.1 apiSortExample none none ("acme") ("widgets") ("") 2 _ _ rfl⟩

/-- C5: the claim says every path whose extension is in the binary set —
"including the literal name `.DS_Store`" — is classified binary.  The code
cannot ever classify a `.DS_Store` entry as binary: for a file literally
named `.DS_Store`, `os.path.splitext` yields an empty extension (leading dots
start no extension), and even for a path with a genuine `.DS_Store`
extension, `ext.lower()` (`.ds_store`) never equals the mixed-case set entry
`.DS_Store`.  The set entry is dead code; ordinary entries still work. -/
theorem claim_C5_dsstore_never_binary :
    is_binary_file (".DS_Store") = false
    ∧ is_binary_file ("sub/.DS_Store") = false
    ∧ is_binary_file ("notes.DS_Store") = false
    ∧ (".DS_Store") ∈ BINARY_FILE_EXTENSIONS
    ∧ is_binary_file ("photo.JPG") = true
    ∧ is_binary_file ("main.rs") = false
    ∧ is_binary_file ("noext") = false := by
  refine ⟨rfl, rfl, rfl, by decide, rfl, rfl, rfl⟩

/-- C6 counterexample: for a non-binary file descriptor with no download URL
but with inline base64 content tagged `base64`, the claim requires the
base64-decoded, UTF-8-decoded payload (`aGVsbG8=` decodes to `hello`); the
code ignores the inline content entirely and returns the "not fetched"
placeholder (directory-listing case), resp. leaves the default binary-style
placeholder (single-file case). -/
theorem cex_C6_no_base64_fallback :
    Item.content itemInlineB64 = some ("aGVsbG8=")
    ∧ Item.encoding itemInlineB64 = some ("base64")
    ∧ Item.download_url itemInlineB64 = none
    ∧ is_binary_file (Item.path itemInlineB64) = false
    ∧ fetchDirFileContent apiUnused itemInlineB64 =
        "[Text content not fetched for f.txt - no download URL]"
    ∧ fetchSingleFileContent apiUnused itemInlineB64 =
        "[Content of binary/image file: f.txt]"
    ∧ ("[Text content not fetched for f.txt - no download URL]" : String) ≠ ("hello") :=
  ⟨rfl, rfl, rfl, rfl, rfl, rfl, by decide⟩

/-- C6 amended: the code performs no inline-base64 fallback.  For every
non-binary item with no truthy download URL — whatever its inline `content`
and `encoding` fields hold — the directory-listing fetch yields the
"not fetched" placeholder and the single-file fetch keeps the default
binary-style placeholder. -/
theorem claim_C6_amended_no_inline_fallback :
    ∀ (api : Api) (item : Item),
      is_binary_file item.path = false →
      pyOr item.download_url none = none →
      fetchDirFileContent api item =
          "[Text content not fetched for " ++ item.path ++ " - no download URL]"
        ∧ fetchSingleFileContent api item = binaryPlaceholder item.path := by
  intro api item hb hd
  constructor
  · simp only [fetchDirFileContent, hb, Bool.false_eq_true, if_false, hd]
  · simp only [fetchSingleFileContent, hb, Bool.false_eq_true, if_false, hd]

/-- C6 witness: the amended theorem applied to the inline-base64 item. -/
theorem claim_C6_witness :
    is_binary_file (Item.path itemInlineB64) = false
    ∧ pyOr (Item.download_url itemInlineB64) none = none
    ∧ (fetchDirFileContent apiUnused itemInlineB64 =
        "[Text content not fetched for " ++ Item.path itemInlineB64 ++ " - no download URL]"
      ∧ fetchSingleFileContent apiUnused itemInlineB64 =
          binaryPlaceholder (Item.path itemInlineB64)) :=
  ⟨rfl, rfl, claim_C6_amended_no_inline_fallback apiUnused itemInlineB64 rfl rfl⟩

/-- C7 counterexample: an HTTP 401 listing response that carries the
rate-limit-exhausted signal (`X-RateLimit-Remaining: 0`) is classified by the
code as the bad-credentials outcome, not the RateLimited outcome the claim
requires for 401-with-signal (only the 403 branch inspects the header). -/
theorem cex_C7_401_with_rate_limit_signal :
    Api.listing apiRate401 ("") =
      .httpStatusError ⟨401, some ("API rate limit exceeded for 1.2.3.4."), none, some ("0")⟩
    ∧ fetch_repo_contents_recursive apiRate401 none none ("o") ("r") 1 ("") =
        .error ⟨401,
          "GitHub API: Bad credentials. Ensure your token is correct and has not expired."⟩
    ∧ (("GitHub API rate limit exceeded.").data.isPrefixOf
        ("GitHub API: Bad credentials. Ensure your token is correct and has not expired.").data
          = false) :=
  ⟨rfl, rfl, by decide⟩

/-- C7 amended: a 403 listing response with remaining-rate-limit `0` yields
the RateLimited detail; a 403 without that signal yields one of the two
AccessDenied details (chosen by token presence); a 401 always yields the
bad-credentials detail, even when the rate-limit signal is present. -/
theorem claim_C7_amended_status_classification :
    ∀ (api : Api) (u e : Option String) (o r p : String) (fuel : Nat)
      (resp : HttpErrorResponse),
      api.listing p = .httpStatusError resp →
      (resp.status = 403 → resp.rateLimitRemaining = some ("0") →
        fetch_repo_contents_recursive api u e o r (fuel + 1) p =
          .error ⟨403, "GitHub API rate limit exceeded. " ++
            resp.jsonMessage.getD ("Access forbidden by GitHub.")⟩)
      ∧ (resp.status = 403 → resp.rateLimitRemaining ≠ some ("0") →
        fetch_repo_contents_recursive api u e o r (fuel + 1) p =
          .error ⟨403,
            resp.jsonMessage.getD ("Access forbidden by GitHub.") ++
              (if pyTruthy (pyOr u e) then
                (" Check token permissions or if it's a rate limit issue. Docs: ")
               else
                (" This could be a private repository (requires a GitHub token) or a rate limit issue. Docs: ")) ++
              resp.jsonDocsUrl.getD ("")⟩)
      ∧ (resp.status = 401 →
        fetch_repo_contents_recursive api u e o r (fuel + 1) p =
          .error ⟨401,
            "GitHub API: Bad credentials. Ensure your token is correct and has not expired."⟩) := by
  intro api u e o r p fuel resp hL
  refine ⟨?_, ?_, ?_⟩
  · intro h403 hrl
    rw [fetch_listing_http_error api u e o r p fuel resp hL]
    simp [listing_error_detail, h403, hrl]
  · intro h403 hrl
    rw [fetch_listing_http_error api u e o r p fuel resp hL]
    by_cases ht : pyTruthy (pyOr u e) = true
    · simp [listing_error_detail, h403, hrl, ht, strAppend_assoc]
    · simp [listing_error_detail, h403, hrl, ht, strAppend_assoc]
  · intro h401
    rw [fetch_listing_http_error api u e o r p fuel resp hL]
    simp [listing_error_detail, h401]

/-- C7 witness: the amended theorem applied to a concrete 403-with-signal
remote. -/
theorem claim_C7_witness :
    Api.listing apiRate403 ("") =
      .httpStatusError ⟨403, some ("API rate limit exceeded for 1.2.3.4."),
        some ("https://docs.github.com/rest"), some ("0")⟩
    ∧ fetch_repo_contents_recursive apiRate403 none none ("o") ("r") 1 ("") =
        .error ⟨403,
          "GitHub API rate limit exceeded. " ++
            (some ("API rate limit exceeded for 1.2.3.4.")).getD
              ("Access forbidden by GitHub.")⟩ :=
  ⟨rfl,
    (claim_C7_amended_status_classification apiRate403 none none ("o") ("r") ("") 0
      ⟨403, some ("API rate limit exceeded for 1.2.3.4."),
        some ("https://docs.github.com/rest"), some ("0")⟩ rfl).1 rfl rfl⟩

/-- C9: a listing entry whose `type` is neither "file" nor "dir" (e.g. a
symlink or submodule) is silently skipped by the loop — removing it from the
listing changes nothing — and concretely a traversal over a listing with a
symlink entry equals the traversal without it, with the symlink appearing in
neither the tree nor the flat list (hence in neither the `file_contents` map
nor the Markdown, both of which are functions of that output). -/
theorem claim_C9_unknown_type_skipped :
    (∀ (api : Api) (recur : String → Except HTTPError (FileNode × List (String × String)))
        (item : Item) (xs ys : List Item),
        item.type ≠ "file" → item.type ≠ "dir" →
        process_listing_items api recur (xs ++ item :: ys) =
          process_listing_items api recur (xs ++ ys))
    ∧ fetch_repo_contents_recursive apiWithSymlink none none ("o") ("r") 2 ("") =
        fetch_repo_contents_recursive apiNoSymlink none none ("o") ("r") 2 ("")
    ∧ fetch_repo_contents_recursive apiWithSymlink none none ("o") ("r") 2 ("") =
        .ok (FileNode.mk ("r") ("") ("dir")
              (some [FileNode.mk ("d") ("d") ("dir") (some []) none,
                     FileNode.mk ("a.txt") ("a.txt") ("file") none (some ("data"))]) none,
             [(("a.txt"), ("data"))]) := by
  refine ⟨?_, by rfl, by rfl⟩
  intro api recur item xs ys hf hd
  exact process_listing_items_skip api recur item hf hd xs ys

/-- C9 witness: the universal conjunct applied to a concrete symlink item in
a concrete listing. -/
theorem claim_C9_witness :
    (Item.type ⟨("link"), ("link"), ("symlink"), none, none, none⟩ ≠ ("file"))
    ∧ (Item.type ⟨("link"), ("link"), ("symlink"), none, none, none⟩ ≠ ("dir"))
    ∧ process_listing_items apiUnused (fun _ => .error ⟨0, ("x")⟩)
        ([] ++ ⟨("link"), ("link"), ("symlink"), none, none, none⟩ ::
          [⟨("a.txt"), ("a.txt"), ("file"), none, none, none⟩]) =
      process_listing_items apiUnused (fun _ => .error ⟨0, ("x")⟩)
        ([] ++ [⟨("a.txt"), ("a.txt"), ("file"), none, none, none⟩]) :=
  ⟨by decide, by decide,
    claim_C9_unknown_type_skipped.1 apiUnused (fun _ => .error ⟨0, ("x")⟩)
      ⟨("link"), ("link"), ("symlink"), none, none, none⟩ []
      [⟨("a.txt"), ("a.txt"), ("file"), none, none, none⟩] (by decide) (by decide)⟩

/-- C10: an empty caller token behaves exactly like an absent one (Python
`or` falls through to the process-level fallback); the Authorization header
is omitted when both tokens are empty or absent; a non-empty caller token
always wins. -/
theorem claim_C10_token_precedence :
    (∀ e : Option String,
      get_github_api_headers (some ("")) e = get_github_api_headers none e)
    ∧ (∀ (e : Option String) (t : String), t ≠ "" →
        get_github_api_headers (some t) e =
          baseHeaders ++ [(("Authorization"), ("Bearer ") ++ t)])
    ∧ (∀ s : String, s ≠ "" →
        get_github_api_headers none (some s) =
            baseHeaders ++ [(("Authorization"), ("Bearer ") ++ s)]
          ∧ get_github_api_headers (some ("")) (some s) =
            baseHeaders ++ [(("Authorization"), ("Bearer ") ++ s)])
    ∧ get_github_api_headers none none = baseHeaders
    ∧ get_github_api_headers (some ("")) none = baseHeaders
    ∧ get_github_api_headers none (some ("")) = baseHeaders
    ∧ get_github_api_headers (some ("")) (some ("")) = baseHeaders := by
  refine ⟨?_, ?_, ?_, rfl, rfl, rfl, rfl⟩
  · intro e
    simp [get_github_api_headers, pyOr, pyTruthy]
  · intro e t ht
    simp [get_github_api_headers, pyOr, pyTruthy, ht]
  · intro s hs
    constructor <;> simp [get_github_api_headers, pyOr, pyTruthy, hs]

/-- C10 witness: the hypothesis-bearing conjuncts applied at concrete
tokens. -/
theorem claim_C10_witness :
    (("tok") ≠ ("" : String))
    ∧ get_github_api_headers (some ("tok")) (some ("env")) =
        baseHeaders ++ [(("Authorization"), ("Bearer ") ++ ("tok"))]
    ∧ get_github_api_headers none (some ("env")) =
        baseHeaders ++ [(("Authorization"), ("Bearer ") ++ ("env"))] :=
  ⟨by decide, claim_C10_token_precedence.2.1 (some ("env")) ("tok") (by decide),
    (claim_C10_token_precedence.2.2.1 ("env") (by decide)).1⟩

/-- C8 counterexample: the fence language is not derived from the file
extension — the code splits the whole path on `.`.  For `v1.0/README` (a
file with no extension, in a dotted directory) the claim requires the fence
tag `text`, but the code computes `0/readme`. -/
theorem cex_C8_lang_from_whole_path :
    display_lang ("v1.0/README") = ("0/readme")
    ∧ (("0/readme") ≠ ("text" : String))
    ∧ fileEntryParts ("v1.0/README") ("hi") =
        [("### File: `v1.0/README`\n"), ("```0/readme\nhi\n```\n\n")] :=
  ⟨rfl, by decide, rfl⟩

/-- C8 amended: the Markdown is, in order, the level-1 repository heading,
the Repository Structure section with the tree text in a `text` fence, a
horizontal rule, and the File Contents section over the flat entries sorted
by lowercased path (stable), one level-3 inline-code heading each; binary
paths get their placeholder with no fence, all other entries get a fence
tagged `display_lang` — which lowercases the part of the whole path after its
last dot (alias-mapping js/py/md/yml/sh, falling back to that raw part, or
`text` when the path contains no dot at all). -/
theorem claim_C8_amended_markdown_layout :
    ∀ (owner repo_name : String) (tree : FileNode) (flat : List (String × String)),
      fetch_repo_api_markdown owner repo_name tree flat =
          ("# Repository: " ++ owner ++ "/" ++ repo_name ++ "\n\n") ++
          (("## Repository Structure\n\n```text\n" ++
              String.intercalate ("\n") (textTreeLines tree) ++ "\n```\n\n") ++
            (("---\n\n## File Contents\n\n") ++
              String.join ((sortFlatByPath flat).flatMap
                (fun fd => fileEntryParts fd.1 fd.2))))
        ∧ (sortFlatByPath flat).Perm flat
        ∧ chainSortedB flatPathLt (sortFlatByPath flat) = true
        ∧ (∀ p c, is_binary_file p = true →
            fileEntryParts p c = [("### File: `" ++ p ++ "`\n"), (c ++ "\n\n")])
        ∧ (∀ p c, is_binary_file p = false →
            fileEntryParts p c =
              [("### File: `" ++ p ++ "`\n"),
               ("```" ++ display_lang p ++ "\n" ++ c ++ "\n```\n\n")])
        ∧ display_lang ("main.py") = ("python")
        ∧ display_lang ("script.sh") = ("bash")
        ∧ display_lang ("Makefile") = ("text")
        ∧ display_lang ("main.rs") = ("rs") := by
  intro owner repo_name tree flat
  refine ⟨?_, sortByLt_perm flatPathLt flat,
    chainSortedB_sortByLt flatPathLt flatPathLt_asymm flat, ?_, ?_,
    rfl, rfl, rfl, rfl⟩
  · simp only [fetch_repo_api_markdown, List.cons_append, List.nil_append]
    rw [strJoin_cons, strJoin_cons, strJoin_cons]
  · intro p c h
    simp [fileEntryParts, h]
  · intro p c h
    simp [fileEntryParts, h]

/-- C8 witness: the amended theorem applied at a concrete repository and a
concrete binary and non-binary entry. -/
theorem claim_C8_witness :
    is_binary_file ("img.png") = true
    ∧ fileEntryParts ("img.png") ("P") = [("### File: `" ++ ("img.png") ++ "`\n"), (("P") ++ "\n\n")]
    ∧ is_binary_file ("main.py") = false
    ∧ fileEntryParts ("main.py") ("code") =
        [("### File: `" ++ ("main.py") ++ "`\n"),
         ("```" ++ display_lang ("main.py") ++ "\n" ++ ("code") ++ "\n```\n\n")] :=
  ⟨rfl,
    (claim_C8_amended_markdown_layout ("o") ("r")
      (FileNode.mk ("r") ("") ("dir") (some []) none) []).2.2.2.1 ("img.png") ("P") rfl,
    rfl,
    (claim_C8_amended_markdown_layout ("o") ("r")
      (FileNode.mk ("r") ("") ("dir") (some []) none) []).2.2.2.2.1 ("main.py") ("code") rfl⟩

/-! ## Newline-free characterization of the URL regex pieces -/

theorem drop_takeWhile_length (p : α → Bool) :
    ∀ l : List α, l.drop ((l.takeWhile p).length) = l.dropWhile p
  | [] => rfl
  | x :: l => by
    by_cases h : p x
    · simp [List.takeWhile_cons, List.dropWhile_cons, h, drop_takeWhile_length p l]
    · simp [List.takeWhile_cons, List.dropWhile_cons, h]

theorem take_takeWhile_length (p : α → Bool) :
    ∀ l : List α, l.take ((l.takeWhile p).length) = l.takeWhile p
  | [] => rfl
  | x :: l => by
    by_cases h : p x
    · simp [List.takeWhile_cons, h, take_takeWhile_length p l]
    · simp [List.takeWhile_cons, h]

theorem takeWhile_append_all {p : α → Bool} :
    ∀ (xs s : List α), (∀ c ∈ xs, p c = true) →
      (s = [] ∨ ∃ c t, s = c :: t ∧ p c = false) →
      (xs ++ s).takeWhile p = xs
  | [], s, _, hs => by
    rcases hs with rfl | ⟨c, t, rfl, hc⟩
    · rfl
    · simp [List.takeWhile_cons, hc]
  | x :: xs, s, hxs, hs => by
    have hx : p x = true := hxs x (by simp)
    simp only [List.cons_append, List.takeWhile_cons, hx, if_true]
    rw [takeWhile_append_all xs s (fun c hc => hxs c (by simp [hc])) hs]

theorem dropWhile_shape (p : α → Bool) :
    ∀ l : List α, l.dropWhile p = [] ∨ ∃ c t, l.dropWhile p = c :: t ∧ p c = false
  | [] => Or.inl rfl
  | x :: l => by
    by_cases h : p x
    · simpa [List.dropWhile_cons, h] using dropWhile_shape p l
    · exact Or.inr ⟨x, l, by simp [List.dropWhile_cons, h], by simpa using h⟩

theorem head_of_lt_takeWhile_length (p : α → Bool) :
    ∀ (l : List α) (j : Nat), j < (l.takeWhile p).length →
      ∃ c, (l.drop j).head? = some c ∧ p c = true
  | [], j, h => by simp [List.takeWhile] at h
  | x :: l, 0, h => by
    by_cases hx : p x
    · exact ⟨x, rfl, hx⟩
    · simp [List.takeWhile_cons, hx] at h
  | x :: l, j + 1, h => by
    by_cases hx : p x
    · simp only [List.takeWhile_cons, hx, if_true, List.length_cons,
        Nat.add_lt_add_iff_right] at h
      simpa using head_of_lt_takeWhile_length p l j h
    · simp [List.takeWhile_cons, hx] at h

theorem matchEnd_nl {s : List Char} (hnl : ∀ c ∈ s, c ≠ '\n') :
    matchEnd s = true ↔ s = [] := by
  cases s with
  | nil => simp [matchEnd]
  | cons c t =>
    have hc : c ≠ '\n' := hnl c (by simp)
    simp only [matchEnd, Bool.or_eq_true, decide_eq_true_eq]
    constructor
    · rintro (h | h)
      · exact h
      · cases h
        exact absurd rfl hc
    · intro h
      exact absurd h (by simp)

theorem matchOptSlashEnd_nl {s : List Char} (hnl : ∀ c ∈ s, c ≠ '\n') :
    matchOptSlashEnd s = true ↔ (s = [] ∨ s = ['/']) := by
  simp only [matchOptSlashEnd, Bool.or_eq_true, Bool.and_eq_true, decide_eq_true_eq,
    matchEnd_nl hnl]
  constructor
  · rintro (rfl | ⟨hhead, htail⟩)
    · exact Or.inl rfl
    · right
      cases s with
      | nil => simp at hhead
      | cons c t =>
        simp only [List.head?_cons, Option.some.injEq] at hhead
        subst hhead
        simp only [List.drop_one, List.tail_cons] at htail
        have ht : t = [] :=
          (matchEnd_nl (fun c hc => hnl c (by simp [hc]))).mp htail
        simp [ht]
  · rintro (rfl | rfl)
    · exact Or.inl rfl
    · exact Or.inr ⟨rfl, rfl⟩

theorem okDotStar_nl {t : List Char} (hnl : ∀ c ∈ t, c ≠ '\n') :
    okDotStar t = true := by
  rw [okDotStar, List.all_eq_true]
  intro c hc
  have : c ∈ t := t.dropLast_sublist.subset hc
  simpa using hnl c this

theorem matchDotStarPart_nl {v : List Char} (hnl : ∀ c ∈ v, c ≠ '\n') :
    matchDotStarPart v = true ↔ (v = [] ∨ v.head? = some '/') := by
  simp only [matchDotStarPart, Bool.or_eq_true, Bool.and_eq_true, decide_eq_true_eq,
    matchOptSlashEnd_nl hnl]
  constructor
  · rintro ((rfl | rfl) | ⟨hh, _⟩)
    · exact Or.inl rfl
    · exact Or.inr rfl
    · exact Or.inr hh
  · rintro (rfl | hh)
    · exact Or.inl (Or.inl rfl)
    · refine Or.inr ⟨hh, okDotStar_nl ?_⟩
      intro c hc
      exact hnl c (List.mem_of_mem_drop hc)

theorem matchTreeTail_nl {u : List Char} (hnl : ∀ c ∈ u, c ≠ '\n') :
    matchTreeTail u = true ↔ (u ≠ [] ∧ u.head? ≠ some '/') := by
  simp only [matchTreeTail, List.any_eq_true, List.mem_range]
  constructor
  · rintro ⟨i, hi, hf⟩
    have hlen : 0 < (u.takeWhile (fun c => c ≠ '/')).length := Nat.lt_of_le_of_lt (Nat.zero_le i) hi
    cases u with
    | nil => simp [List.takeWhile] at hlen
    | cons c t =>
      by_cases hc : c = '/'
      · subst hc
        simp [List.takeWhile_cons] at hlen
      · exact ⟨by simp, by simpa using hc⟩
  · rintro ⟨hne, hh⟩
    cases u with
    | nil => exact absurd rfl hne
    | cons c t =>
      have hc : ¬ c = '/' := fun h => hh (by simp [h])
      have hlen : 0 < ((c :: t).takeWhile (fun ch => ch ≠ '/')).length := by
        simp [List.takeWhile_cons, hc]
      set m := ((c :: t).takeWhile (fun ch => ch ≠ '/')).length with hm
      refine ⟨m - 1, by omega, ?_⟩
      have hstep : m - 1 + 1 = m := by omega
      rw [hstep, hm, drop_takeWhile_length]
      rw [matchDotStarPart_nl (fun ch hch =>
        hnl ch (((c :: t).dropWhile_sublist (fun ch => ch ≠ '/')).subset hch))]
      rcases dropWhile_shape (fun ch => ch ≠ '/') (c :: t) with hsh | ⟨d, dt, hsh, hd⟩
      · exact Or.inl hsh
      · right
        rw [hsh]
        simp only [List.head?_cons, Option.some.injEq]
        simpa using hd

theorem matchTreeGroup_nl {s : List Char} (hnl : ∀ c ∈ s, c ≠ '\n') :
    matchTreeGroup s = true ↔ suffixCoreB s = true := by
  have hdrop : ∀ c ∈ s.drop 6, c ≠ '\n' := fun c hc => hnl c (List.mem_of_mem_drop hc)
  simp only [matchTreeGroup, suffixCoreB, Bool.or_eq_true, Bool.and_eq_true,
    decide_eq_true_eq, matchOptSlashEnd_nl hnl, matchTreeTail_nl hdrop]
  tauto

theorem matchGitTail_nl {s : List Char} (hnl : ∀ c ∈ s, c ≠ '\n') :
    matchGitTail s = true ↔ suffixOkB s = true := by
  have hdrop : ∀ c ∈ s.drop 4, c ≠ '\n' := fun c hc => hnl c (List.mem_of_mem_drop hc)
  simp only [matchGitTail, suffixOkB, Bool.or_eq_true, Bool.and_eq_true,
    matchTreeGroup_nl hnl, matchTreeGroup_nl hdrop]

theorem suffixOkB_head (s : List Char) (hs : suffixOkB s = true) :
    s = [] ∨ (∃ t, s = '/' :: t) ∨ (∃ t, s = '.' :: t) := by
  simp only [suffixOkB, suffixCoreB, Bool.or_eq_true, Bool.and_eq_true,
    decide_eq_true_eq] at hs
  rcases hs with ((rfl | rfl) | ⟨⟨hpfx, _⟩, _⟩) | ⟨hpfx, _⟩
  · exact Or.inl rfl
  · exact Or.inr (Or.inl ⟨[], rfl⟩)
  · rw [List.isPrefixOf_iff_prefix] at hpfx
    obtain ⟨t, ht⟩ := hpfx
    exact Or.inr (Or.inl ⟨("tree/").data ++ t, by rw [← ht]; rfl⟩)
  · rw [List.isPrefixOf_iff_prefix] at hpfx
    obtain ⟨t, ht⟩ := hpfx
    exact Or.inr (Or.inr ⟨("git").data ++ t, by rw [← ht]; rfl⟩)

theorem matchGitTail_mid_run {c : Char} {rest : List Char}
    (hc1 : c ≠ '/') (hc2 : c ≠ '.') (hc3 : c ≠ '\n')
    (hnl : ∀ ch ∈ rest, ch ≠ '\n') :
    matchGitTail (c :: rest) = false := by
  rw [← Bool.not_eq_true]
  intro hmatch
  have hnl' : ∀ ch ∈ c :: rest, ch ≠ '\n' := by
    intro ch hch
    rcases List.mem_cons.mp hch with rfl | hch
    · exact hc3
    · exact hnl ch hch
  rw [matchGitTail_nl hnl'] at hmatch
  rcases suffixOkB_head _ hmatch with h | ⟨t, h⟩ | ⟨t, h⟩
  · exact List.cons_ne_nil c rest h
  · rw [List.cons.injEq] at h
    exact absurd h.1 hc1
  · rw [List.cons.injEq] at h
    exact absurd h.1 hc2

theorem lazyRepoLen_nl {tail : List Char} (hnl : ∀ c ∈ tail, c ≠ '\n') (k : Nat) :
    lazyRepoLen tail = some k ↔
      (k = (tail.takeWhile (fun c => c ≠ '/' && c ≠ '.')).length ∧ 1 ≤ k ∧
        suffixOkB (tail.drop k) = true) := by
  have hnldrop : ∀ j : Nat, ∀ c ∈ tail.drop j, c ≠ '\n' :=
    fun j c hc => hnl c (List.mem_of_mem_drop hc)
  have hfalse : ∀ i,
      i + 1 < (tail.takeWhile (fun c => c ≠ '/' && c ≠ '.')).length →
      matchGitTail (tail.drop (i + 1)) = false := by
    intro i hi
    obtain ⟨c, hhead, hpc⟩ :=
      head_of_lt_takeWhile_length (fun c => c ≠ '/' && c ≠ '.') tail (i + 1) hi
    obtain ⟨rest, hdrop⟩ : ∃ rest, tail.drop (i + 1) = c :: rest := by
      cases hd : tail.drop (i + 1) with
      | nil => rw [hd] at hhead; exact absurd hhead (by simp)
      | cons d rest =>
        rw [hd] at hhead
        simp only [List.head?_cons, Option.some.injEq] at hhead
        exact ⟨rest, by rw [hhead]⟩
    have hcmem : c ∈ tail :=
      List.mem_of_mem_drop (by rw [hdrop]; exact List.mem_cons_self c rest)
    have hpc' : c ≠ '/' ∧ c ≠ '.' := by simpa using hpc
    rw [hdrop]
    exact matchGitTail_mid_run hpc'.1 hpc'.2 (hnl c hcmem)
      (fun ch hch => hnl ch (List.mem_of_mem_drop (by rw [hdrop]; simp [hch])))
  constructor
  · intro h
    rw [lazyRepoLen] at h
    rw [Option.map_eq_some'] at h
    obtain ⟨i, hfind, hik⟩ := h
    have hfi := List.find?_some hfind
    have him : i < (tail.takeWhile (fun c => c ≠ '/' && c ≠ '.')).length :=
      List.mem_range.mp (List.mem_of_find?_eq_some hfind)
    have him2 : ¬ (i + 1 < (tail.takeWhile (fun c => c ≠ '/' && c ≠ '.')).length) := by
      intro hlt
      rw [hfalse i hlt] at hfi
      exact Bool.false_ne_true hfi
    subst hik
    refine ⟨by omega, by omega, ?_⟩
    exact (matchGitTail_nl (hnldrop (i + 1))).mp hfi
  · rintro ⟨hkm, h1, h2⟩
    have hfm : matchGitTail (tail.drop k) = true :=
      (matchGitTail_nl (hnldrop k)).mpr h2
    have hfm' : matchGitTail (tail.drop ((k - 1) + 1)) = true := by
      have he : k - 1 + 1 = k := by omega
      rw [he]
      exact hfm
    have hexists : ∃ x ∈ List.range
        ((tail.takeWhile (fun c => c ≠ '/' && c ≠ '.')).length),
        matchGitTail (tail.drop (x + 1)) = true :=
      ⟨k - 1, List.mem_range.mpr (by omega), hfm'⟩
    have hsome : ((List.range
        ((tail.takeWhile (fun c => c ≠ '/' && c ≠ '.')).length)).find?
        (fun i => matchGitTail (tail.drop (i + 1)))).isSome = true :=
      List.find?_isSome.mpr hexists
    rw [Option.isSome_iff_exists] at hsome
    obtain ⟨j, hj⟩ := hsome
    have hfj := List.find?_some hj
    have hjm : j < (tail.takeWhile (fun c => c ≠ '/' && c ≠ '.')).length :=
      List.mem_range.mp (List.mem_of_find?_eq_some hj)
    have hj1 : ¬ (j + 1 < (tail.takeWhile (fun c => c ≠ '/' && c ≠ '.')).length) := by
      intro hlt
      rw [hfalse j hlt] at hfj
      exact Bool.false_ne_true hfj
    have hjk : j + 1 = k := by omega
    rw [lazyRepoLen, hj, Option.map_some', hjk]

/-- C4 counterexample: `https://github.com/acme/my.repo` is of the claimed
shape (owner `acme`, nonempty repo path segment `my.repo`, no suffix), but
the parser rejects it: the repo group `[^/.]+?` cannot contain a dot, and the
remainder `.repo` matches neither `.git` nor a tree suffix. -/
theorem cex_C4_dotted_repo_rejected :
    parse_github_url ("https://github.com/acme/my.repo") = none := by rfl

/-- C4 amended: restricted to newline-free strings (`$` would otherwise also
match before a final newline), the parser succeeds with `(owner, repo)`
exactly when the string is
`https://github.com/<owner>/<repo>[.git][/tree/<ref>[/<subpath>]][/]` with a
nonempty slash-free owner and a nonempty slash-free **dot-free** repo — in
particular `.git` and `/tree/...` are stripped and never become part of the
repo name, and everything else is rejected. -/
theorem claim_C4_amended_parser_iff :
    ∀ url : String, (∀ c ∈ url.data, c ≠ '\n') →
      ∀ o r : String, (parse_github_url url = some (o, r) ↔ UrlShape url o r) := by
  intro url hnl o r
  constructor
  · intro h
    rw [parse_github_url] at h
    simp only [] at h
    split at h
    case isFalse => exact absurd h (by simp)
    case isTrue hpre =>
      split at h
      case isTrue hemp => exact absurd h (by simp)
      case isFalse hemp =>
        rw [drop_takeWhile_length] at h
        split at h
        case h_2 hne => exact absurd h (by simp)
        case h_1 tl heq =>
          split at h
          case h_2 => exact absurd h (by simp)
          case h_1 k hlz =>
            simp only [Option.some.injEq, Prod.mk.injEq] at h
            obtain ⟨ho, hr⟩ := h
            have hpre' := (List.isPrefixOf_iff_prefix.mp hpre)
            have hurl0 : ("https://github.com/").data ++
                url.data.drop (("https://github.com/").data.length) = url.data :=
              List.prefix_iff_eq_append.mp hpre'
            have hrest : url.data.drop (("https://github.com/").data.length) =
                ((url.data.drop (("https://github.com/").data.length)).takeWhile
                  (fun c => c ≠ '/')) ++ '/' :: tl := by
              conv_lhs => rw [← List.takeWhile_append_dropWhile
                (p := fun c => c ≠ '/')
                (l := url.data.drop (("https://github.com/").data.length))]
              rw [heq]
            have hnl_tl : ∀ c ∈ tl, c ≠ '\n' := by
              intro c hc
              apply hnl
              have h1 : c ∈ '/' :: tl := by simp [hc]
              rw [← heq] at h1
              have h2 := (List.dropWhile_sublist (fun c => c ≠ '/')
                (l := url.data.drop (("https://github.com/").data.length))).subset h1
              exact (List.drop_sublist _ _).subset h2
            have hchar := (lazyRepoLen_nl hnl_tl k).mp hlz
            obtain ⟨hk, h1k, hsuf⟩ := hchar
            refine ⟨tl.drop k, ?_, ?_, ?_, ?_, ?_, hsuf⟩
            · rw [← hurl0, hrest, ← ho, ← hr]
              have htl : tl = tl.take k ++ tl.drop k := (List.take_append_drop k tl).symm
              conv_lhs => rw [htl]
              simp [List.append_assoc]
            · intro hc
              apply hemp
              rw [List.isEmpty_iff]
              rw [← ho] at hc
              exact hc
            · intro c hc
              rw [← ho] at hc
              simpa using List.mem_takeWhile_imp hc
            · intro hc
              rw [← hr] at hc
              have hlen0 : (tl.take k).length = 0 := by
                have : (tl.take k) = [] := hc
                rw [this]
                rfl
              rw [List.length_take] at hlen0
              have hkle : k ≤ tl.length := by
                rw [hk]
                exact (List.takeWhile_sublist _).length_le
              omega
            · intro c hc
              rw [← hr, hk, take_takeWhile_length] at hc
              simpa using List.mem_takeWhile_imp hc
  · rintro ⟨s, hurl, honem, hoslash, hrnem, hrchars, hsuf⟩
    have hmem_tail : ∀ c ∈ r.data ++ s, c ∈ url.data := by
      intro c hc
      rw [hurl]
      rcases List.mem_append.mp hc with h | h <;> simp [h]
    have hnl_tail : ∀ c ∈ r.data ++ s, c ≠ '\n' := fun c hc => hnl c (hmem_tail c hc)
    have hpre : ("https://github.com/").data.isPrefixOf url.data = true := by
      rw [List.isPrefixOf_iff_prefix]
      exact ⟨o.data ++ '/' :: (r.data ++ s), by rw [hurl, List.append_assoc]⟩
    have hrest : url.data.drop (("https://github.com/").data.length) =
        o.data ++ '/' :: (r.data ++ s) := by
      rw [hurl, List.append_assoc, List.drop_left]
    have howner : (url.data.drop (("https://github.com/").data.length)).takeWhile
        (fun c => c ≠ '/') = o.data := by
      rw [hrest]
      exact takeWhile_append_all o.data ('/' :: (r.data ++ s))
        (fun c hc => by simpa using hoslash c hc)
        (Or.inr ⟨'/', r.data ++ s, rfl, by simp⟩)
    have hshead : s = [] ∨ ∃ c t, s = c :: t ∧
        ((fun c => decide (c ≠ '/') && decide (c ≠ '.')) c) = false := by
      rcases suffixOkB_head s hsuf with h | ⟨t, h⟩ | ⟨t, h⟩
      · exact Or.inl h
      · exact Or.inr ⟨'/', t, h, by simp⟩
      · exact Or.inr ⟨'.', t, h, by simp⟩
    have hrun : ((r.data ++ s).takeWhile (fun c => c ≠ '/' && c ≠ '.')) = r.data :=
      takeWhile_append_all r.data s
        (fun c hc => by
          have := hrchars c hc
          simp [this.1, this.2])
        hshead
    have hlz : lazyRepoLen (r.data ++ s) = some r.data.length := by
      rw [lazyRepoLen_nl hnl_tail r.data.length]
      refine ⟨by rw [hrun], ?_, ?_⟩
      · have : 0 < r.data.length := List.length_pos.mpr hrnem
        omega
      · rw [List.drop_left]
        exact hsuf
    rw [parse_github_url]
    simp only []
    rw [if_pos hpre]
    rw [howner]
    have hoe : o.data.isEmpty = false := by
      cases hd : o.data with
      | nil => exact absurd hd honem
      | cons a l => rfl
    rw [hoe]
    simp only [Bool.false_eq_true, if_false]
    have hdrop2 : (url.data.drop (("https://github.com/").data.length)).drop
        o.data.length = '/' :: (r.data ++ s) := by
      rw [hrest, List.drop_left]
    rw [hdrop2]
    simp only [hlz, List.take_left]

/-- C4 witness: the amended characterization applied to a concrete URL with
both a `.git` and a `/tree/<ref>/<subpath>` suffix. -/
theorem claim_C4_witness :
    (∀ c ∈ ("https://github.com/acme/widgets.git/tree/main/src").data, c ≠ '\n')
    ∧ (parse_github_url ("https://github.com/acme/widgets.git/tree/main/src") =
          some (("acme"), ("widgets")) ↔
        UrlShape ("https://github.com/acme/widgets.git/tree/main/src")
          ("acme") ("widgets")) :=
  ⟨by decide, claim_C4_amended_parser_iff ("https://github.com/acme/widgets.git/tree/main/src")
    (by decide) ("acme") ("widgets")⟩
